import Mathlib

/-!
Verification development for the k8s-collector core: a shallow embedding of
the chunked-delivery pipeline (collector/collector.go, the current variant
using errgroup-based concurrent page uploads) and of the ownership-tree
reconstruction (collector/k8stree). Machine integers do not overflow in any
modelled loop (sizes are sums of `len(bytes)` far below 2^63), so byte counts
are modelled as `Nat`.
-/

/-! ## Chunking loops (collector.go, sendK8sObjects / sendK8sTree / sendHelmReleases)

Each of the three delivery families runs the same accumulation loop over the
items of the family: serialize the item, optionally drop it (size cap, or the
empty-tree rule for the tree family), otherwise add its byte size to the
running total and the item to the current page; then, if the running total
exceeds `PageSize*1000` bytes or the item was the last one, close the page.
The loops depend on the items only through their serialized byte length
(plus, for trees, the child count and kind), so the models take those
observables as input. The `json.Marshal` error branch is not modelled: it is
dead code for the in-memory values the collector builds.
-/

/-- MaxItemSize is the hard per-item cap from collector.go: 1024 * 1500 bytes. -/
def MaxItemSize : Nat := 1024 * 1500

/-- Chunking loop of sendK8sObjects. `budget` is `f.conf.PageSize*1000`; `data`
is the list of serialized byte sizes of the family's items, in input order.
`totalBytes` and `objects` accumulate the current page; `chunks` the closed
pages. An item larger than `MaxItemSize` is skipped ("skipping massive
resource"); the page is closed when the running total exceeds the budget or
the input is exhausted (`idx == len(data)-1`, i.e. the remaining list is
empty). -/
def chunkObjectsAux (budget : Nat) : List Nat → Nat → List Nat → List (List Nat) → List (List Nat)
  | [], _, _, chunks => chunks
  | obj :: rest, totalBytes, objects, chunks =>
    let (totalBytes', objects') :=
      if obj > MaxItemSize then (totalBytes, objects)
      else (totalBytes + obj, objects ++ [obj])
    if totalBytes' > budget || rest.isEmpty then
      chunkObjectsAux budget rest 0 [] (chunks ++ [objects'])
    else
      chunkObjectsAux budget rest totalBytes' objects' chunks

/-- Pages produced by the sendK8sObjects chunking loop for items of the given
serialized sizes. -/
def chunkObjects (budget : Nat) (data : List Nat) : List (List Nat) :=
  chunkObjectsAux budget data 0 [] []

/-- Observables of one ObjectsTree root as seen by the sendK8sTree chunking
loop: number of children, kind, and serialized byte size. -/
structure TreeItem where
  childrenCount : Nat
  kind : String
  size : Nat
deriving Repr, DecidableEq

/-- Chunking loop of sendK8sTree. A tree with no children whose kind is
neither "Ingress" nor "Provisioner" is skipped ("skipping empty tree");
a tree larger than `MaxItemSize` is skipped ("skipping massive tree");
otherwise the tree joins the current page. Page closing is as in
sendK8sObjects. -/
def chunkTreesAux (budget : Nat) : List TreeItem → Nat → List TreeItem → List (List TreeItem) → List (List TreeItem)
  | [], _, _, chunks => chunks
  | tree :: rest, totalBytes, objectsTrees, chunks =>
    let (totalBytes', objectsTrees') :=
      if tree.childrenCount = 0 && tree.kind != "Ingress" && tree.kind != "Provisioner" then
        (totalBytes, objectsTrees)
      else if tree.size > MaxItemSize then (totalBytes, objectsTrees)
      else (totalBytes + tree.size, objectsTrees ++ [tree])
    if totalBytes' > budget || rest.isEmpty then
      chunkTreesAux budget rest 0 [] (chunks ++ [objectsTrees'])
    else
      chunkTreesAux budget rest totalBytes' objectsTrees' chunks

/-- Pages produced by the sendK8sTree chunking loop. -/
def chunkTrees (budget : Nat) (data : List TreeItem) : List (List TreeItem) :=
  chunkTreesAux budget data 0 [] []

/-- Chunking loop of sendHelmReleases: every release joins the current page —
this loop has no `MaxItemSize` check and no skip branch at all. -/
def chunkHelmAux (budget : Nat) : List Nat → Nat → List Nat → List (List Nat) → List (List Nat)
  | [], _, _, chunks => chunks
  | obj :: rest, totalBytes, objects, chunks =>
    let totalBytes' := totalBytes + obj
    let objects' := objects ++ [obj]
    if totalBytes' > budget || rest.isEmpty then
      chunkHelmAux budget rest 0 [] (chunks ++ [objects'])
    else
      chunkHelmAux budget rest totalBytes' objects' chunks

/-- Pages produced by the sendHelmReleases chunking loop. -/
def chunkHelm (budget : Nat) (data : List Nat) : List (List Nat) :=
  chunkHelmAux budget data 0 [] []

/-! ### Chunk-budget invariant (C1) -/

theorem sum_dropLast_le (l : List Nat) : l.dropLast.sum ≤ l.sum :=
  (List.dropLast_sublist l).sum_le_sum (fun a _ => Nat.zero_le a)

theorem chunkObjectsAux_dropLast_sum_le (budget : Nat) :
    ∀ (data : List Nat) (totalBytes : Nat) (objects : List Nat) (chunks : List (List Nat)),
      totalBytes = objects.sum → totalBytes ≤ budget →
      (∀ c ∈ chunks, c.dropLast.sum ≤ budget) →
      ∀ c ∈ chunkObjectsAux budget data totalBytes objects chunks, c.dropLast.sum ≤ budget := by
  intro data
  induction data with
  | nil =>
    intro totalBytes objects chunks _ _ hchunks c hc
    exact hchunks c hc
  | cons obj rest ih =>
    intro totalBytes objects chunks hsum hle hchunks c hc
    simp only [chunkObjectsAux] at hc
    by_cases hbig : obj > MaxItemSize
    · simp only [if_pos hbig] at hc
      by_cases hclose : (totalBytes > budget || rest.isEmpty) = true
      · rw [if_pos hclose] at hc
        refine ih 0 [] (chunks ++ [objects]) rfl (Nat.zero_le _) ?_ c hc
        intro d hd
        rcases List.mem_append.mp hd with h | h
        · exact hchunks d h
        · rcases List.mem_singleton.mp h with rfl
          calc d.dropLast.sum ≤ d.sum := sum_dropLast_le d
          _ = totalBytes := hsum.symm
          _ ≤ budget := hle
      · rw [if_neg hclose] at hc
        exact ih totalBytes objects chunks hsum hle hchunks c hc
    · simp only [if_neg hbig] at hc
      by_cases hclose : (totalBytes + obj > budget || rest.isEmpty) = true
      · rw [if_pos hclose] at hc
        refine ih 0 [] (chunks ++ [objects ++ [obj]]) rfl (Nat.zero_le _) ?_ c hc
        intro d hd
        rcases List.mem_append.mp hd with h | h
        · exact hchunks d h
        · rcases List.mem_singleton.mp h with rfl
          rw [List.dropLast_concat]
          calc objects.sum = totalBytes := hsum.symm
          _ ≤ budget := hle
      · rw [if_neg hclose] at hc
        have h1 : ¬ totalBytes + obj > budget := by
          intro hgt
          exact hclose (by simp [hgt])
        have hle' : totalBytes + obj ≤ budget := Nat.le_of_not_lt h1
        exact ih (totalBytes + obj) (objects ++ [obj]) chunks (by simp [hsum]) hle' hchunks c hc

/-- C1, counterexample: with items of serialized sizes 300, 300, 300 and
budget 500, the sendK8sObjects loop produces the pages [[300, 300], [300]]
(the first page holds two items, 600 bytes, above the budget) and not the
three singleton pages the claim predicts; in particular a non-final page
exceeds the budget. -/
theorem chunkObjects_scenarioC_refuted :
    chunkObjects 500 [300, 300, 300] = [[300, 300], [300]] ∧
      chunkObjects 500 [300, 300, 300] ≠ [[300], [300], [300]] ∧
      ∃ c ∈ (chunkObjects 500 [300, 300, 300]).dropLast, ¬ c.sum ≤ 500 := by
  refine ⟨by decide, by decide, [300, 300], by decide, by decide⟩

/-- C1, amended: every page the sendK8sObjects loop produces (the final one
included) has cumulative serialized size at most the budget once its last
item is excluded — the loop adds each surviving item first and only then
closes the page when the running total exceeds the budget, so a page may
overshoot the budget by exactly its last item; for sizes [300, 300, 300]
and budget 500 the pages are [[300, 300], [300]]. -/
theorem chunkObjects_budget_amended (budget : Nat) (data : List Nat) :
    (∀ c ∈ chunkObjects budget data, c.dropLast.sum ≤ budget) ∧
      chunkObjects 500 [300, 300, 300] = [[300, 300], [300]] := by
  refine ⟨?_, by decide⟩
  intro c hc
  exact chunkObjectsAux_dropLast_sum_le budget data 0 [] [] rfl (Nat.zero_le _)
    (by intro d hd; cases hd) c hc

/-- C1, witness: the amended budget bound evaluated at budget 500 and sizes
[300, 300, 300], on the first produced page. -/
theorem chunkObjects_budget_amended_witness :
    [300, 300] ∈ chunkObjects 500 [300, 300, 300] ∧
      ([300, 300] : List Nat).dropLast.sum ≤ 500 :=
  ⟨by decide, (chunkObjects_budget_amended 500 [300, 300, 300]).1 [300, 300] (by decide)⟩

/-! ### Per-item size cap (C7) -/

theorem chunkObjectsAux_item_le_cap (budget : Nat) :
    ∀ (data : List Nat) (totalBytes : Nat) (objects : List Nat) (chunks : List (List Nat)),
      (∀ x ∈ objects, x ≤ MaxItemSize) →
      (∀ c ∈ chunks, ∀ x ∈ c, x ≤ MaxItemSize) →
      ∀ c ∈ chunkObjectsAux budget data totalBytes objects chunks, ∀ x ∈ c, x ≤ MaxItemSize := by
  intro data
  induction data with
  | nil =>
    intro _ _ chunks _ hchunks c hc
    exact hchunks c hc
  | cons obj rest ih =>
    intro totalBytes objects chunks hobjects hchunks c hc
    simp only [chunkObjectsAux] at hc
    by_cases hbig : obj > MaxItemSize
    · simp only [if_pos hbig] at hc
      by_cases hclose : (totalBytes > budget || rest.isEmpty) = true
      · rw [if_pos hclose] at hc
        refine ih 0 [] (chunks ++ [objects]) (by intro x hx; cases hx) ?_ c hc
        intro d hd
        rcases List.mem_append.mp hd with h | h
        · exact hchunks d h
        · rcases List.mem_singleton.mp h with rfl
          exact hobjects
      · rw [if_neg hclose] at hc
        exact ih totalBytes objects chunks hobjects hchunks c hc
    · simp only [if_neg hbig] at hc
      have hobjects' : ∀ x ∈ objects ++ [obj], x ≤ MaxItemSize := by
        intro x hx
        rcases List.mem_append.mp hx with h | h
        · exact hobjects x h
        · rcases List.mem_singleton.mp h with rfl
          exact Nat.le_of_not_lt hbig
      by_cases hclose : (totalBytes + obj > budget || rest.isEmpty) = true
      · rw [if_pos hclose] at hc
        refine ih 0 [] (chunks ++ [objects ++ [obj]]) (by intro x hx; cases hx) ?_ c hc
        intro d hd
        rcases List.mem_append.mp hd with h | h
        · exact hchunks d h
        · rcases List.mem_singleton.mp h with rfl
          exact hobjects'
      · rw [if_neg hclose] at hc
        exact ih (totalBytes + obj) (objects ++ [obj]) chunks hobjects' hchunks c hc

theorem chunkTreesAux_item_le_cap (budget : Nat) :
    ∀ (data : List TreeItem) (totalBytes : Nat) (objectsTrees : List TreeItem) (chunks : List (List TreeItem)),
      (∀ t ∈ objectsTrees, t.size ≤ MaxItemSize) →
      (∀ c ∈ chunks, ∀ t ∈ c, t.size ≤ MaxItemSize) →
      ∀ c ∈ chunkTreesAux budget data totalBytes objectsTrees chunks, ∀ t ∈ c, t.size ≤ MaxItemSize := by
  intro data
  induction data with
  | nil =>
    intro _ _ chunks _ hchunks c hc
    exact hchunks c hc
  | cons tree rest ih =>
    intro totalBytes objectsTrees chunks hcur hchunks c hc
    simp only [chunkTreesAux] at hc
    by_cases hempty : (tree.childrenCount = 0 && tree.kind != "Ingress" && tree.kind != "Provisioner") = true
    · rw [if_pos hempty] at hc
      by_cases hclose : (totalBytes > budget || rest.isEmpty) = true
      · rw [if_pos hclose] at hc
        refine ih 0 [] (chunks ++ [objectsTrees]) (by intro t ht; cases ht) ?_ c hc
        intro d hd
        rcases List.mem_append.mp hd with h | h
        · exact hchunks d h
        · rcases List.mem_singleton.mp h with rfl
          exact hcur
      · rw [if_neg hclose] at hc
        exact ih totalBytes objectsTrees chunks hcur hchunks c hc
    · rw [if_neg hempty] at hc
      by_cases hbig : tree.size > MaxItemSize
      · rw [if_pos hbig] at hc
        by_cases hclose : (totalBytes > budget || rest.isEmpty) = true
        · rw [if_pos hclose] at hc
          refine ih 0 [] (chunks ++ [objectsTrees]) (by intro t ht; cases ht) ?_ c hc
          intro d hd
          rcases List.mem_append.mp hd with h | h
          · exact hchunks d h
          · rcases List.mem_singleton.mp h with rfl
            exact hcur
        · rw [if_neg hclose] at hc
          exact ih totalBytes objectsTrees chunks hcur hchunks c hc
      · rw [if_neg hbig] at hc
        have hcur' : ∀ t ∈ objectsTrees ++ [tree], t.size ≤ MaxItemSize := by
          intro t ht
          rcases List.mem_append.mp ht with h | h
          · exact hcur t h
          · rcases List.mem_singleton.mp h with rfl
            exact Nat.le_of_not_lt hbig
        by_cases hclose : (totalBytes + tree.size > budget || rest.isEmpty) = true
        · rw [if_pos hclose] at hc
          refine ih 0 [] (chunks ++ [objectsTrees ++ [tree]]) (by intro t ht; cases ht) ?_ c hc
          intro d hd
          rcases List.mem_append.mp hd with h | h
          · exact hchunks d h
          · rcases List.mem_singleton.mp h with rfl
            exact hcur'
        · rw [if_neg hclose] at hc
          exact ih (totalBytes + tree.size) (objectsTrees ++ [tree]) chunks hcur' hchunks c hc

/-- C7, counterexample: the sendHelmReleases chunking loop performs no
per-item size check — a release serializing to MaxItemSize + 1 bytes is
placed in a page, so a request can contain an item above the cap on the
release-metadata path. -/
theorem chunkHelm_oversized_item_sent :
    chunkHelm 500000 [MaxItemSize + 1] = [[MaxItemSize + 1]] ∧
      ∃ c ∈ chunkHelm 500000 [MaxItemSize + 1], ∃ x ∈ c, x > MaxItemSize := by
  refine ⟨by decide, [MaxItemSize + 1], by decide, MaxItemSize + 1, by decide, by decide⟩

/-- C7, amended: the flat-objects and tree-forest chunking loops drop every
item whose serialized size exceeds MaxItemSize, so no page of those two
families ever contains an item above the cap, for any budget; the
release-metadata loop performs no such check (see the counterexample). -/
theorem chunk_item_cap_amended (budget : Nat) (sizes : List Nat) (trees : List TreeItem) :
    (∀ c ∈ chunkObjects budget sizes, ∀ x ∈ c, x ≤ MaxItemSize) ∧
      (∀ c ∈ chunkTrees budget trees, ∀ t ∈ c, t.size ≤ MaxItemSize) := by
  constructor
  · intro c hc
    exact chunkObjectsAux_item_le_cap budget sizes 0 [] []
      (by intro x hx; cases hx) (by intro d hd; cases hd) c hc
  · intro c hc
    exact chunkTreesAux_item_le_cap budget trees 0 [] []
      (by intro t ht; cases ht) (by intro d hd; cases hd) c hc

/-! ## Ownership-tree reconstruction (collector/k8stree)

The Go code works over `unstructured.Unstructured` values: each one wraps a
pointer-shared `map[string]interface{}`, so `SetOwnerReferences` on any copy
of an object is visible through every slice that holds that object. The
embedding therefore separates the immutable attributes of an object
(`K8sObj`) from its mutable owner-reference list, which lives in an explicit
store keyed by uid (`Store`); `storeGet`/`storeSet` read and write the first
entry for a uid, which coincides with the Go shared-map semantics whenever
uids are unique in the input — the data-model invariant. `GetK8sTree`
converts every incoming object via a type assertion; the model takes the
already-converted objects as input.

The recursion of `createTrees` is not structural; the model uses a fuel
parameter, consumed one unit per loop step and per recursive call, and
`getK8sTree` supplies a fuel shown sufficient for every input
(`createTreesAux_adequate`), so the fuel is a proof device, not a behavior
change: the Go function has no cap and never reports an error — its error
result is literally the constant nil, which the model therefore omits. -/

/-- Owner reference as constructed and compared by the k8stree code.
Matching in createTrees uses only the UID; the other fields are carried
because specialChildren fills them. -/
structure OwnerRef where
  uid : String
  kind : String
  name : String
  apiVersion : String
deriving Repr, DecidableEq

/-- Immutable attributes of one collected object (GetUID, GetKind,
GetNamespace, GetName, GetAPIVersion) plus its declared owner references as
present in the input. `ns` stands for the namespace, which is a reserved
word. -/
structure K8sObj where
  uid : String
  kind : String
  ns : String
  name : String
  apiVersion : String
  ownerRefs : List OwnerRef
deriving Repr, DecidableEq

/-- Node of the reconstructed forest (k8stree.ObjectsTree). The opaque
payload (`Object`) is not modelled: the algorithm never inspects it. -/
inductive ObjectsTree where
  | mk (children : List ObjectsTree) (uid : String) (kind : String) (name : String)
deriving Repr

/-- Children of a tree node. -/
def ObjectsTree.children : ObjectsTree → List ObjectsTree
  | .mk cs _ _ _ => cs

/-- Uid of a tree node. -/
def ObjectsTree.uid : ObjectsTree → String
  | .mk _ u _ _ => u

/-- Kind of a tree node. -/
def ObjectsTree.kind : ObjectsTree → String
  | .mk _ _ k _ => k

/-- Name of a tree node. -/
def ObjectsTree.name : ObjectsTree → String
  | .mk _ _ _ n => n

/-- Mutable owner-reference state: first entry for a uid is the object's
current reference list. -/
abbrev Store := List (String × List OwnerRef)

/-- Current owner references of the object with the given uid
(GetOwnerReferences). -/
def storeGet (st : Store) (uid : String) : List OwnerRef :=
  ((st.find? (fun p => p.1 == uid)).map (fun p => p.2)).getD []

/-- Overwrite the owner references of the object with the given uid
(SetOwnerReferences); only the first entry for the uid is replaced. -/
def storeSet : Store → String → List OwnerRef → Store
  | [], _, _ => []
  | (k, v) :: rest, uid, refs =>
    if k == uid then (k, refs) :: rest else (k, v) :: storeSet rest uid refs

/-- Initial store: each object carries its declared owner references. -/
def initStore (objs : List K8sObj) : Store :=
  objs.map (fun o => (o.uid, o.ownerRefs))

/-- Total number of owner references currently held in the store; each match
in createTrees strictly decreases it, which bounds the recursion. -/
def totalRefs (st : Store) : Nat :=
  (st.map (fun p => p.2.length)).sum

/-! ### Heuristic parents (getSpecialParents / specialChildren) -/

/-- Special-parent index built by getSpecialParents: one map per parent kind.
Go stores them in a `map[string]map[string]unstructured.Unstructured`; the
model keeps one insertion-ordered association list per kind, with the Go
map's overwrite-on-duplicate-key behavior. -/
structure SpecialParents where
  service : List (String × K8sObj)
  statefulSet : List (String × K8sObj)
  pvc : List (String × K8sObj)
deriving Repr

/-- Map insertion with overwrite semantics of a Go map assignment. -/
def spInsert (m : List (String × K8sObj)) (k : String) (v : K8sObj) : List (String × K8sObj) :=
  if m.any (fun p => p.1 == k) then m.map (fun p => if p.1 == k then (k, v) else p)
  else m ++ [(k, v)]

/-- Map lookup. -/
def spLookup (m : List (String × K8sObj)) (k : String) : Option K8sObj :=
  (m.find? (fun p => p.1 == k)).map (fun p => p.2)

/-- getSpecialParents: index the objects of the three special parent kinds.
Services and StatefulSets are keyed by "namespace/name"; claims by
"pvc-" followed by their uid. -/
def getSpecialParents (objs : List K8sObj) : SpecialParents :=
  objs.foldl (fun sp o =>
    if o.kind == "Service" then
      { sp with service := spInsert sp.service (o.ns ++ "/" ++ o.name) o }
    else if o.kind == "StatefulSet" then
      { sp with statefulSet := spInsert sp.statefulSet (o.ns ++ "/" ++ o.name) o }
    else if o.kind == "PersistentVolumeClaim" then
      { sp with pvc := spInsert sp.pvc ("pvc-" ++ o.uid) o }
    else sp) ⟨[], [], []⟩

/-- Synthetic owner reference pointing at a heuristic parent, with the fields
specialChildren fills in. -/
def mkOwnerRef (o : K8sObj) : OwnerRef :=
  ⟨o.uid, o.kind, o.name, o.apiVersion⟩

/-- Split of a character list on the dash character, mirroring
strings.Split(s, "-"): empty segments are preserved and the result is never
empty. Implemented on `List Char` because the embedding needs it to evaluate
inside the kernel. -/
def splitDash (cs : List Char) : List (List Char) :=
  cs.foldr (fun c acc =>
    match acc with
    | [] => if c = '-' then [[], []] else [[c]]
    | a :: as => if c = '-' then [] :: (a :: as) else (c :: a) :: as) [[]]

/-- Join of character-list segments with dashes, mirroring
strings.Join(parts, "-"). -/
def joinDash : List (List Char) → List Char
  | [] => []
  | [a] => a
  | a :: rest => a ++ '-' :: joinDash rest

/-- Suffix test on strings, mirroring strings.HasSuffix, computed on the
character lists so that it evaluates inside the kernel. -/
def hasSfx (s sfx : String) : Bool :=
  sfx.data.isSuffixOf s.data

/-- specialChildren: decide whether an object without explicit owner
references receives a synthetic heuristic parent, and which. An Endpoints
object is matched to the Service with its namespace/name; a PersistentVolume
to the claim whose map key ("pvc-" ++ claim uid) equals the volume's name;
a PersistentVolumeClaim whose name has at least one dash is matched to a
StatefulSet in the same namespace whose name is a suffix of the claim's name
with its last dash-separated segment removed (funk.Find iterates a Go map in
unspecified order; the model scans in insertion order, which agrees whenever
at most one StatefulSet matches). -/
def specialChildren (obj : K8sObj) (sp : SpecialParents) : Bool × List OwnerRef :=
  if obj.kind == "Endpoints" then
    match spLookup sp.service (obj.ns ++ "/" ++ obj.name) with
    | some service => (true, [mkOwnerRef service])
    | none => (false, [])
  else if obj.kind == "PersistentVolume" then
    match spLookup sp.pvc obj.name with
    | some claim => (true, [mkOwnerRef claim])
    | none => (false, [])
  else if obj.kind == "PersistentVolumeClaim" then
    let pvcSplitName := splitDash obj.name.data
    if pvcSplitName.length = 1 then (false, [])
    else
      let pvcNameWithoutIndex : String := ⟨joinDash pvcSplitName.dropLast⟩
      match (sp.statefulSet.map (fun p => p.2)).find?
          (fun statefulSet => obj.ns == statefulSet.ns &&
            hasSfx pvcNameWithoutIndex statefulSet.name) with
      | some statefulSet => (true, [mkOwnerRef statefulSet])
      | none => (false, [])
  else (false, [])

/-! ### Root partition (getSourceParents) -/

/-- Leaf tree node for an object, as built by getSourceParents and
createTrees. -/
def mkLeaf (o : K8sObj) : ObjectsTree :=
  .mk [] o.uid o.kind o.name

/-- Loop of getSourceParents: an object with no current owner references
either receives a synthetic parent (specialChildren) and joins the remaining
children with its new references written to the store, or becomes a source
parent; an object with owner references joins the remaining children. -/
def getSourceParentsAux (sp : SpecialParents) :
    List K8sObj → Store → List ObjectsTree → List K8sObj →
      List ObjectsTree × List K8sObj × Store
  | [], st, parents, remaining => (parents, remaining, st)
  | o :: rest, st, parents, remaining =>
    let objOwners := storeGet st o.uid
    if objOwners.isEmpty then
      let res := specialChildren o sp
      if res.1 then
        getSourceParentsAux sp rest (storeSet st o.uid res.2) parents (remaining ++ [o])
      else
        getSourceParentsAux sp rest st (parents ++ [mkLeaf o]) remaining
    else
      getSourceParentsAux sp rest st parents (remaining ++ [o])

/-- getSourceParents: partition the objects into source parents (roots) and
remaining children, assigning synthetic owner references on the way. -/
def getSourceParents (objs : List K8sObj) (st : Store) :
    List ObjectsTree × List K8sObj × Store :=
  getSourceParentsAux (getSpecialParents objs) objs st [] []

/-! ### Recursive tree construction (createTrees) -/

/-- createTrees: starting from `tree`, scan `pending` (initially the whole
candidate list `objectsAll`); an object holding an owner reference with the
tree's uid has every reference to that uid removed (subtractOwnerReferences
followed by SetOwnerReferences), is recorded in `found` when no references
remain, and is recursively expanded against
`objectsAll` minus the found children (subtractUnstructuredObjects, which
removes by uid); the resulting subtree is appended to the children. One fuel
unit is consumed per step so that the definition is structural and
kernel-evaluable; `createTreesAux_adequate` discharges the fuel. -/
def createTreesAux :
    Nat → ObjectsTree → List K8sObj → List K8sObj → List String → Store →
      Option (ObjectsTree × List String × Store)
  | 0, _, _, _, _, _ => none
  | _ + 1, tree, _, [], found, st => some (tree, found, st)
  | fuel + 1, tree, objectsAll, obj :: rest, found, st =>
    let ownerReference := storeGet st obj.uid
    if ownerReference.any (fun r => r.uid == tree.uid) then
      let ownerReference' := ownerReference.filter (fun r => r.uid != tree.uid)
      let st' := storeSet st obj.uid ownerReference'
      let found' := if ownerReference'.isEmpty then found ++ [obj.uid] else found
      let remainingChildren := objectsAll.filter (fun o => !(found'.contains o.uid))
      match createTreesAux fuel (mkLeaf obj) remainingChildren remainingChildren [] st' with
      | none => none
      | some (childTree, objChildren, st'') =>
        createTreesAux fuel (.mk (tree.children ++ [childTree]) tree.uid tree.kind tree.name)
          objectsAll rest (found' ++ objChildren) st''
    else
      createTreesAux fuel tree objectsAll rest found st

/-- Loop of GetK8sTree over the source parents: create each parent's tree
against the current remaining objects, then remove the found (fully
consumed) children before the next parent. -/
def getK8sTreeAux (fuel : Nat) :
    List ObjectsTree → List K8sObj → Store → List ObjectsTree →
      Option (List ObjectsTree × Store)
  | [], _, st, acc => some (acc, st)
  | p :: ps, remaining, st, acc =>
    match createTreesAux fuel p remaining remaining [] st with
    | none => none
    | some (tree, found, st') =>
      getK8sTreeAux fuel ps (remaining.filter (fun o => !(found.contains o.uid))) st'
        (acc ++ [tree])

/-- Fuel budget sufficient for every input (see createTreesAux_adequate). -/
def treeFuel (st : Store) (remaining : List K8sObj) : Nat :=
  totalRefs st * (remaining.length + 2) + remaining.length + 1

/-- GetK8sTree: build the ownership forest of the given objects. The Go
function's error result is the constant nil and is omitted; the outer
`Option` is the model's fuel artifact and is `some` on every input
(getK8sTree_total). -/
def getK8sTree (objs : List K8sObj) : Option (List ObjectsTree) :=
  (getK8sTreeAux
      (treeFuel (getSourceParents objs (initStore objs)).2.2
        (getSourceParents objs (initStore objs)).2.1)
      (getSourceParents objs (initStore objs)).1
      (getSourceParents objs (initStore objs)).2.1
      (getSourceParents objs (initStore objs)).2.2 []).map (fun r => r.1)

/-- Number of nodes carrying a given uid in a forest; the head's own
children count before its siblings. -/
def countForest (u : String) : List ObjectsTree → Nat
  | [] => 0
  | .mk children uid _ _ :: ts =>
    (if uid = u then 1 else 0) + countForest u children + countForest u ts

/-! ### Store bookkeeping lemmas -/

theorem storeGet_cons (k : String) (v : List OwnerRef) (st : Store) (u : String) :
    storeGet ((k, v) :: st) u = if k == u then v else storeGet st u := by
  by_cases h : k == u <;> simp [storeGet, List.find?_cons, h]

theorem storeSet_cons (k : String) (v : List OwnerRef) (st : Store) (u : String)
    (l : List OwnerRef) :
    storeSet ((k, v) :: st) u l =
      if k == u then (k, l) :: st else (k, v) :: storeSet st u l := by
  by_cases h : k == u <;> simp [storeSet, h]

theorem totalRefs_cons (k : String) (v : List OwnerRef) (st : Store) :
    totalRefs ((k, v) :: st) = v.length + totalRefs st := by
  simp [totalRefs]

theorem storeGet_storeSet_ne (st : Store) (k u : String) (l : List OwnerRef)
    (h : ¬ k == u) : storeGet (storeSet st k l) u = storeGet st u := by
  induction st with
  | nil => rfl
  | cons p rest ih =>
    obtain ⟨k', v'⟩ := p
    by_cases hk : k' == k
    · have hk' : k' = k := by simpa using hk
      subst hk'
      rw [storeSet_cons, if_pos (by simp), storeGet_cons, storeGet_cons, if_neg h, if_neg h]
    · rw [storeSet_cons, if_neg hk, storeGet_cons, storeGet_cons]
      by_cases hu : k' == u
      · rw [if_pos hu, if_pos hu]
      · rw [if_neg hu, if_neg hu, ih]

theorem totalRefs_storeSet (st : Store) (u : String) (l : List OwnerRef)
    (h : storeGet st u ≠ []) :
    totalRefs (storeSet st u l) + (storeGet st u).length = totalRefs st + l.length := by
  induction st with
  | nil => exact absurd rfl h
  | cons p rest ih =>
    obtain ⟨k, v⟩ := p
    by_cases hk : k == u
    · rw [storeSet_cons, if_pos hk, storeGet_cons, if_pos hk, totalRefs_cons, totalRefs_cons]
      omega
    · rw [storeGet_cons, if_neg hk] at h ⊢
      rw [storeSet_cons, if_neg hk, totalRefs_cons, totalRefs_cons]
      have := ih h
      omega

theorem length_filter_not_lt_of_any {α : Type} (p : α → Bool) :
    ∀ l : List α, l.any p = true →
      (l.filter (fun a => !(p a))).length < l.length := by
  intro l
  induction l with
  | nil => intro h; cases h
  | cons a rest ih =>
    intro h
    by_cases ha : p a = true
    · have hlen := List.length_filter_le (fun x => !(p x)) rest
      simp [List.filter_cons, ha]
      omega
    · have hb : p a = false := by simpa using ha
      have hrest : rest.any p = true := by
        rcases List.any_eq_true.mp h with ⟨x, hx, hpx⟩
        rcases List.mem_cons.mp hx with rfl | hx'
        · rw [hb] at hpx; cases hpx
        · exact List.any_eq_true.mpr ⟨x, hx', hpx⟩
      have := ih hrest
      simp [List.filter_cons, hb]
      omega

/-! ### Fuel adequacy: GetK8sTree terminates on every input (C2) -/

theorem createTreesAux_adequate :
    ∀ (fuel : Nat) (tree : ObjectsTree) (objectsAll pending : List K8sObj)
      (found : List String) (st : Store),
      totalRefs st * (objectsAll.length + 2) + pending.length + 1 ≤ fuel →
      ∃ r, createTreesAux fuel tree objectsAll pending found st = some r ∧
        totalRefs r.2.2 ≤ totalRefs st := by
  intro fuel
  induction fuel with
  | zero => intro _ _ pending _ _ hb; omega
  | succ fuel ih =>
    intro tree objectsAll pending found st hb
    match pending with
    | [] => exact ⟨(tree, found, st), rfl, Nat.le_refl _⟩
    | obj :: rest =>
      simp only [createTreesAux]
      by_cases hmatch : (storeGet st obj.uid).any (fun r => r.uid == tree.uid) = true
      · rw [if_pos hmatch]
        have hne : storeGet st obj.uid ≠ [] := by
          intro hnil
          rw [hnil] at hmatch
          cases hmatch
        have hfl : ((storeGet st obj.uid).filter (fun r => r.uid != tree.uid)).length <
            (storeGet st obj.uid).length := by
          have := length_filter_not_lt_of_any (fun r => r.uid == tree.uid)
            (storeGet st obj.uid) hmatch
          simpa [bne] using this
        have hT' : totalRefs (storeSet st obj.uid
            ((storeGet st obj.uid).filter (fun r => r.uid != tree.uid))) + 1 ≤ totalRefs st := by
          have := totalRefs_storeSet st obj.uid
            ((storeGet st obj.uid).filter (fun r => r.uid != tree.uid)) hne
          omega
        set refs' := (storeGet st obj.uid).filter (fun r => r.uid != tree.uid) with hrefs'
        set st' := storeSet st obj.uid refs' with hst'
        set found' := if refs'.isEmpty then found ++ [obj.uid] else found with hfound'
        set remaining := objectsAll.filter (fun o => !(found'.contains o.uid)) with hrem
        have hremlen : remaining.length ≤ objectsAll.length := List.length_filter_le _ _
        have hrec : totalRefs st' * (remaining.length + 2) + remaining.length + 1 ≤ fuel := by
          have h1 : totalRefs st' * (remaining.length + 2) ≤
              totalRefs st' * (objectsAll.length + 2) :=
            Nat.mul_le_mul_left _ (by omega)
          have h2 : (totalRefs st' + 1) * (objectsAll.length + 2) ≤
              totalRefs st * (objectsAll.length + 2) :=
            Nat.mul_le_mul_right _ hT'
          have h3 : (totalRefs st' + 1) * (objectsAll.length + 2) =
              totalRefs st' * (objectsAll.length + 2) + objectsAll.length + 2 := by ring
          omega
        obtain ⟨⟨childTree, objChildren, st''⟩, heq, hle⟩ :=
          ih (mkLeaf obj) remaining remaining [] st' hrec
        rw [heq]
        have hle' : totalRefs st'' ≤ totalRefs st' := hle
        have hcont : totalRefs st'' * (objectsAll.length + 2) + rest.length + 1 ≤ fuel := by
          have h2 : (totalRefs st'' + 1) * (objectsAll.length + 2) ≤
              totalRefs st * (objectsAll.length + 2) :=
            Nat.mul_le_mul_right _ (by omega)
          have h3 : (totalRefs st'' + 1) * (objectsAll.length + 2) =
              totalRefs st'' * (objectsAll.length + 2) + objectsAll.length + 2 := by ring
          simp only [List.length_cons] at hb
          omega
        obtain ⟨r, heq2, hle2⟩ := ih (.mk (tree.children ++ [childTree]) tree.uid tree.kind
          tree.name) objectsAll rest (found' ++ objChildren) st'' hcont
        exact ⟨r, heq2, by omega⟩
      · rw [if_neg hmatch]
        have : totalRefs st * (objectsAll.length + 2) + rest.length + 1 ≤ fuel := by
          simp only [List.length_cons] at hb
          omega
        exact ih tree objectsAll rest found st this

theorem getK8sTreeAux_adequate :
    ∀ (parents : List ObjectsTree) (fuel : Nat) (remaining : List K8sObj) (st : Store)
      (acc : List ObjectsTree),
      totalRefs st * (remaining.length + 2) + remaining.length + 1 ≤ fuel →
      ∃ r, getK8sTreeAux fuel parents remaining st acc = some r := by
  intro parents
  induction parents with
  | nil => intro fuel remaining st acc _; exact ⟨(acc, st), rfl⟩
  | cons p ps ih =>
    intro fuel remaining st acc hb
    simp only [getK8sTreeAux]
    obtain ⟨⟨tree, found, st'⟩, heq, hle⟩ :=
      createTreesAux_adequate fuel p remaining remaining [] st hb
    rw [heq]
    have hlen : (remaining.filter (fun o => !(found.contains o.uid))).length ≤
        remaining.length := List.length_filter_le _ _
    refine ih fuel _ st' _ ?_
    have h1 : totalRefs st' * ((remaining.filter (fun o => !(found.contains o.uid))).length + 2)
        ≤ totalRefs st * (remaining.length + 2) :=
      Nat.mul_le_mul hle (by omega)
    omega

theorem getK8sTree_total (objs : List K8sObj) : ∃ f, getK8sTree objs = some f := by
  unfold getK8sTree
  obtain ⟨r, hr⟩ := getK8sTreeAux_adequate (getSourceParents objs (initStore objs)).1
    (treeFuel (getSourceParents objs (initStore objs)).2.2
      (getSourceParents objs (initStore objs)).2.1)
    (getSourceParents objs (initStore objs)).2.1
    (getSourceParents objs (initStore objs)).2.2 []
    (Nat.le_refl _)
  exact ⟨r.1, by rw [hr]; rfl⟩

/-- C2, amended: GetK8sTree terminates on every input, cyclic ownership
included — each attachment permanently removes the consumed owner
reference, which bounds the recursion — and returns a forest; it enforces
no depth cap and has no error path (its Go error result is the constant
nil), so a cycle is dropped silently rather than reported. -/
theorem getK8sTree_terminates (objs : List K8sObj) : ∃ f, getK8sTree objs = some f :=
  getK8sTree_total objs

/-- C2, counterexample: on the cyclic two-object input (a owned by b, b owned
by a) GetK8sTree terminates and returns successfully with the empty forest —
the cycle objects are silently dropped; no ErrCyclicOwnership (nor any other
error) is produced, and no depth cap exists: the Go function's error result
is the constant nil. -/
theorem getK8sTree_cyclic_no_error :
    getK8sTree [⟨"a", "Pod", "ns", "a", "v1", [⟨"b", "Pod", "b", "v1"⟩]⟩,
      ⟨"b", "Pod", "ns", "b", "v1", [⟨"a", "Pod", "a", "v1"⟩]⟩] = some [] := rfl

/-! ## Run orchestration (collector.go, Collector.Run and the send functions)

The model follows the non-dry-run path of Run. Network outcomes are oracle
inputs: one Bool per up-front call (login, kube-system namespace lookup,
HEAD fetching) and one Bool per page index for each family's POST loop
(errgroup collects the first error, but — the context being discarded and
never consulted — every page is dispatched and sent regardless of earlier
failures; only the set of issued requests and the aggregate error are
deterministic, so the model records exactly those). Serialized sizes come
from oracle functions standing for json.Marshal. Each network request the
code can issue is recorded as one trace event, in program order. -/

/-- Outcome classification of a run, mirroring which call of Run failed. -/
inductive RunError where
  | configError
  | authError
  | uniqueIdError
  | fetchingError
  | helmDeliveryError
  | treeBuildError
  | treeDeliveryError
  | objectsDeliveryError
deriving Repr, DecidableEq

/-- Network requests issued during a run: the login POST, the kube-system
namespace GET, the HEAD that opens the fetching session, one POST per page
of each family, and the terminal PATCH (commit). -/
inductive Ev where
  | authCall
  | uniqueIdCall
  | openCall
  | postHelm (i : Nat)
  | postTree (i : Nat)
  | postObjects (i : Nat)
  | patchCall
deriving Repr, DecidableEq

/-- Validation of the cluster ID against clusterIDRegex, which is
`^[a-z0-9-_]+$`: one or more characters, each a lowercase letter, a digit,
a dash or an underscore. Computed on the character list so that it
evaluates inside the kernel. -/
def validClusterID (s : String) : Bool :=
  !s.data.isEmpty && s.data.all (fun c => c.isLower || c.isDigit || c = '-' || c = '_')

/-- Per-run outside-world outcomes. -/
structure RunOracle where
  authOk : Bool
  uniqueIdOk : Bool
  fetchingOk : Bool
  helmPostOk : Nat → Bool
  treePostOk : Nat → Bool
  objPostOk : Nat → Bool
  patchOk : Bool

/-- sendHelmReleases: nothing to send on an empty family; otherwise chunk
and POST every page (the errgroup dispatch loop runs to completion), failing
if any page POST failed. The k8sTypes list rides along in each body and does
not influence control flow. -/
def sendHelmReleasesM (budget : Nat) (sizes : List Nat) (postOk : Nat → Bool) :
    List Ev × Option RunError :=
  if sizes.isEmpty then ([], none)
  else
    let chunks := chunkHelm budget sizes
    if (List.range chunks.length).any (fun i => !postOk i) then
      ((List.range chunks.length).map Ev.postHelm, some .helmDeliveryError)
    else
      ((List.range chunks.length).map Ev.postHelm, none)

/-- sendK8sTree: nothing to send on an empty family; otherwise chunk the
trees (dropping empty and oversized ones) and POST every page, failing if
any page POST failed. `treeSize` stands for the serialized length of a tree
root as produced by json.Marshal after the Name field is cleared. -/
def sendK8sTreeM (budget : Nat) (trees : List ObjectsTree) (treeSize : ObjectsTree → Nat)
    (postOk : Nat → Bool) : List Ev × Option RunError :=
  if trees.isEmpty then ([], none)
  else
    let items := trees.map (fun t => TreeItem.mk t.children.length t.kind (treeSize t))
    let chunks := chunkTrees budget items
    if (List.range chunks.length).any (fun i => !postOk i) then
      ((List.range chunks.length).map Ev.postTree, some .treeDeliveryError)
    else
      ((List.range chunks.length).map Ev.postTree, none)

/-- sendK8sObjects: an empty family returns success immediately — no page
POST and, notably, no PATCH either. Otherwise every page is POSTed; if any
POST failed the first error is returned; if all succeeded the terminal
PATCH (commit) is issued, and a PATCH failure is only logged — the function
still returns success. -/
def sendK8sObjectsM (budget : Nat) (sizes : List Nat) (postOk : Nat → Bool)
    (patchOk : Bool) : List Ev × Option RunError :=
  if sizes.isEmpty then ([], none)
  else
    let chunks := chunkObjects budget sizes
    if (List.range chunks.length).any (fun i => !postOk i) then
      ((List.range chunks.length).map Ev.postObjects, some .objectsDeliveryError)
    else
      ((List.range chunks.length).map Ev.postObjects ++ [Ev.patchCall], none)

/-- Collector.Run, non-dry-run path: validate the cluster ID before any
call; then authenticate, look up the kube-system namespace uid, open the
fetching session with a HEAD; run the collectors (their output is the
`helmSizes`/`objs` input, collection being out of network scope); then
deliver helm releases, build and deliver the ownership forest, and deliver
the flat objects (whose sender also issues the commit PATCH). The first
failure aborts the run. -/
def runM (clusterID : String) (budget : Nat) (helmSizes : List Nat) (objs : List K8sObj)
    (objSize : K8sObj → Nat) (treeSize : ObjectsTree → Nat) (o : RunOracle) :
    List Ev × Option RunError :=
  if !validClusterID clusterID then ([], some .configError)
  else if !o.authOk then ([.authCall], some .authError)
  else if !o.uniqueIdOk then ([.authCall, .uniqueIdCall], some .uniqueIdError)
  else if !o.fetchingOk then ([.authCall, .uniqueIdCall, .openCall], some .fetchingError)
  else
    let pre : List Ev := [.authCall, .uniqueIdCall, .openCall]
    let helmRes := sendHelmReleasesM budget helmSizes o.helmPostOk
    match helmRes.2 with
    | some e => (pre ++ helmRes.1, some e)
    | none =>
      match getK8sTree objs with
      | none => (pre ++ helmRes.1, some .treeBuildError)
      | some trees =>
        let treeRes := sendK8sTreeM budget trees treeSize o.treePostOk
        match treeRes.2 with
        | some e => (pre ++ helmRes.1 ++ treeRes.1, some e)
        | none =>
          let objRes := sendK8sObjectsM budget (objs.map objSize) o.objPostOk o.patchOk
          (pre ++ helmRes.1 ++ treeRes.1 ++ objRes.1, objRes.2)

/-- Phase rank of an event in the order the code issues requests. -/
def phaseIdx : Ev → Nat
  | .authCall => 0
  | .uniqueIdCall => 1
  | .openCall => 2
  | .postHelm _ => 3
  | .postTree _ => 4
  | .postObjects _ => 5
  | .patchCall => 6

/-! ### Helper lemmas about the send loops -/

theorem range_any_not_false {p : Nat → Bool} (n : Nat) (h : ∀ i, p i = true) :
    (List.range n).any (fun i => !p i) = false := by
  rw [Bool.eq_false_iff]
  intro hc
  rcases List.any_eq_true.mp hc with ⟨i, _, hi⟩
  rw [h i] at hi
  cases hi

theorem range_any_not_true {p : Nat → Bool} {n : Nat} (h : ∃ i, i < n ∧ p i = false) :
    (List.range n).any (fun i => !p i) = true := by
  rcases h with ⟨i, hin, hpi⟩
  exact List.any_eq_true.mpr ⟨i, List.mem_range.mpr hin, by rw [hpi]; rfl⟩

theorem sendHelmReleasesM_events (b : Nat) (s : List Nat) (p : Nat → Bool) :
    ∀ e ∈ (sendHelmReleasesM b s p).1, ∃ i, e = Ev.postHelm i := by
  simp only [sendHelmReleasesM]
  split
  · intro e he; cases he
  · split
    all_goals
      intro e he
      rcases List.mem_map.mp he with ⟨i, _, rfl⟩
      exact ⟨i, rfl⟩

theorem sendK8sTreeM_events (b : Nat) (ts : List ObjectsTree) (sz : ObjectsTree → Nat)
    (p : Nat → Bool) :
    ∀ e ∈ (sendK8sTreeM b ts sz p).1, ∃ i, e = Ev.postTree i := by
  simp only [sendK8sTreeM]
  split
  · intro e he; cases he
  · split
    all_goals
      intro e he
      rcases List.mem_map.mp he with ⟨i, _, rfl⟩
      exact ⟨i, rfl⟩

theorem sendK8sObjectsM_events (b : Nat) (s : List Nat) (p : Nat → Bool) (pk : Bool) :
    ∀ e ∈ (sendK8sObjectsM b s p pk).1, (∃ i, e = Ev.postObjects i) ∨ e = Ev.patchCall := by
  simp only [sendK8sObjectsM]
  split
  · intro e he; cases he
  · split
    · intro e he
      rcases List.mem_map.mp he with ⟨i, _, rfl⟩
      exact .inl ⟨i, rfl⟩
    · intro e he
      rcases List.mem_append.mp he with h | h
      · rcases List.mem_map.mp h with ⟨i, _, rfl⟩
        exact .inl ⟨i, rfl⟩
      · exact .inr (List.mem_singleton.mp h)

theorem sendHelmReleasesM_err_shape (b : Nat) (s : List Nat) (p : Nat → Bool) :
    (sendHelmReleasesM b s p).2 = none ∨
      (sendHelmReleasesM b s p).2 = some .helmDeliveryError := by
  simp only [sendHelmReleasesM]
  split
  · exact .inl rfl
  · split
    · exact .inr rfl
    · exact .inl rfl

theorem sendK8sTreeM_err_shape (b : Nat) (ts : List ObjectsTree) (sz : ObjectsTree → Nat)
    (p : Nat → Bool) :
    (sendK8sTreeM b ts sz p).2 = none ∨
      (sendK8sTreeM b ts sz p).2 = some .treeDeliveryError := by
  simp only [sendK8sTreeM]
  split
  · exact .inl rfl
  · split
    · exact .inr rfl
    · exact .inl rfl

theorem sendK8sObjectsM_err_shape (b : Nat) (s : List Nat) (p : Nat → Bool) (pk : Bool) :
    (sendK8sObjectsM b s p pk).2 = none ∨
      (sendK8sObjectsM b s p pk).2 = some .objectsDeliveryError := by
  simp only [sendK8sObjectsM]
  split
  · exact .inl rfl
  · split
    · exact .inr rfl
    · exact .inl rfl

theorem sendHelmReleasesM_ok (b : Nat) (s : List Nat) {p : Nat → Bool}
    (h : ∀ i, p i = true) : (sendHelmReleasesM b s p).2 = none := by
  simp only [sendHelmReleasesM]
  split
  · rfl
  · simp [range_any_not_false _ h]

theorem sendK8sTreeM_ok (b : Nat) (ts : List ObjectsTree) (sz : ObjectsTree → Nat)
    {p : Nat → Bool} (h : ∀ i, p i = true) : (sendK8sTreeM b ts sz p).2 = none := by
  simp only [sendK8sTreeM]
  split
  · rfl
  · simp [range_any_not_false _ h]

theorem sendK8sObjectsM_all_ok (b : Nat) (s : List Nat) (p : Nat → Bool) (pk : Bool)
    (hs : s ≠ []) (h : ∀ i, p i = true) :
    sendK8sObjectsM b s p pk =
      ((List.range (chunkObjects b s).length).map Ev.postObjects ++ [Ev.patchCall], none) := by
  simp only [sendK8sObjectsM]
  rw [if_neg (by simpa using hs)]
  simp [range_any_not_false _ h]

theorem sendK8sObjectsM_patch_mem (b : Nat) (s : List Nat) (p : Nat → Bool) (pk : Bool)
    (h : Ev.patchCall ∈ (sendK8sObjectsM b s p pk).1) :
    (sendK8sObjectsM b s p pk).2 = none := by
  simp only [sendK8sObjectsM] at h ⊢
  by_cases hs : s.isEmpty
  · rw [if_pos hs] at h
    cases h
  · rw [if_neg hs] at h ⊢
    by_cases hfail : ((List.range (chunkObjects b s).length).any fun i => !p i) = true
    · rw [if_pos hfail] at h
      rcases List.mem_map.mp h with ⟨i, _, hi⟩
      cases hi
    · rw [if_neg hfail]

/-! ### Cluster-ID validation and the config error (C8) -/

/-- C8, confirmed: Run returns the invalid-cluster-ID error, with no network
call issued, exactly when the cluster ID fails the `^[a-z0-9-_]+$` check:
an invalid ID yields the config error and the empty request trace, and a
valid ID can never produce the config error. -/
theorem runM_config_error_iff (cid : String) (budget : Nat) (helmSizes : List Nat)
    (objs : List K8sObj) (objSize : K8sObj → Nat) (treeSize : ObjectsTree → Nat)
    (o : RunOracle) :
    (validClusterID cid = false →
      runM cid budget helmSizes objs objSize treeSize o = ([], some .configError)) ∧
      (validClusterID cid = true →
        (runM cid budget helmSizes objs objSize treeSize o).2 ≠ some .configError) := by
  constructor
  · intro h
    simp [runM, h]
  · intro h
    simp only [runM, h, Bool.not_true, Bool.false_eq_true, if_false]
    by_cases ha : o.authOk
    case neg => simp [ha]
    by_cases hu : o.uniqueIdOk
    case neg => simp [ha, hu]
    by_cases hf : o.fetchingOk
    case neg => simp [ha, hu, hf]
    simp only [ha, hu, hf, Bool.not_true, Bool.false_eq_true, if_false]
    rcases sendHelmReleasesM_err_shape budget helmSizes o.helmPostOk with hh | hh
    · rcases hgt : getK8sTree objs with _ | trees
      · simp [hh, hgt]
      · rcases sendK8sTreeM_err_shape budget trees treeSize o.treePostOk with ht | ht
        · rcases sendK8sObjectsM_err_shape budget (objs.map objSize) o.objPostOk o.patchOk with
            ho | ho <;> simp [hh, hgt, ht, ho]
        · simp [hh, hgt, ht]
    · simp [hh]

/-- C8, witness: the config-error equivalence applied to the cluster ID
"My Cluster" (space and uppercase letters), which fails validation, and to
the valid ID "my-cluster_9". -/
theorem runM_config_error_iff_witness :
    runM "My Cluster" 500 [] [] (fun _ => 0) (fun _ => 0)
        ⟨true, true, true, fun _ => true, fun _ => true, fun _ => true, true⟩ =
      ([], some .configError) ∧
      (runM "my-cluster_9" 500 [] [] (fun _ => 0) (fun _ => 0)
        ⟨true, true, true, fun _ => true, fun _ => true, fun _ => true, true⟩).2 ≠
        some .configError :=
  ⟨(runM_config_error_iff "My Cluster" 500 [] [] (fun _ => 0) (fun _ => 0)
      ⟨true, true, true, fun _ => true, fun _ => true, fun _ => true, true⟩).1 (by decide),
    (runM_config_error_iff "my-cluster_9" 500 [] [] (fun _ => 0) (fun _ => 0)
      ⟨true, true, true, fun _ => true, fun _ => true, fun _ => true, true⟩).2 (by decide)⟩

/-! ### Commit failure is non-fatal (C9) -/

/-- C9, confirmed: when every page POST of every family succeeds but the
terminal PATCH fails, the run still reports success — the PATCH outcome is
only logged and never turned into an error — and the PATCH was indeed
attempted. -/
theorem runM_commit_failure_success (cid : String) (budget : Nat) (helmSizes : List Nat)
    (objs : List K8sObj) (objSize : K8sObj → Nat) (treeSize : ObjectsTree → Nat)
    (o : RunOracle) (hcid : validClusterID cid = true) (ha : o.authOk = true)
    (hu : o.uniqueIdOk = true) (hf : o.fetchingOk = true)
    (hh : ∀ i, o.helmPostOk i = true) (ht : ∀ i, o.treePostOk i = true)
    (hb : ∀ i, o.objPostOk i = true) (hpatch : o.patchOk = false) (hne : objs ≠ []) :
    (runM cid budget helmSizes objs objSize treeSize o).2 = none ∧
      Ev.patchCall ∈ (runM cid budget helmSizes objs objSize treeSize o).1 := by
  obtain ⟨trees, hgt⟩ := getK8sTree_total objs
  have hmap : objs.map objSize ≠ [] := by
    intro hc
    exact hne (List.map_eq_nil_iff.mp hc)
  have hobj := sendK8sObjectsM_all_ok budget (objs.map objSize) o.objPostOk
    o.patchOk hmap hb
  simp only [runM, hcid, ha, hu, hf, Bool.not_true, Bool.false_eq_true, if_false,
    sendHelmReleasesM_ok budget helmSizes hh, hgt, sendK8sTreeM_ok budget trees treeSize ht,
    hobj]
  simp

/-- C9, witness: a concrete successful delivery with a failing PATCH. -/
theorem runM_commit_failure_success_witness :
    (runM "c" 500 [10] [⟨"x", "Pod", "n", "x", "v1", []⟩] (fun _ => 10) (fun _ => 10)
        ⟨true, true, true, fun _ => true, fun _ => true, fun _ => true, false⟩).2 = none ∧
      Ev.patchCall ∈ (runM "c" 500 [10] [⟨"x", "Pod", "n", "x", "v1", []⟩] (fun _ => 10)
        (fun _ => 10) ⟨true, true, true, fun _ => true, fun _ => true, fun _ => true, false⟩).1 :=
  runM_commit_failure_success "c" 500 [10] [⟨"x", "Pod", "n", "x", "v1", []⟩] (fun _ => 10)
    (fun _ => 10) ⟨true, true, true, fun _ => true, fun _ => true, fun _ => true, false⟩
    (by decide) rfl rfl rfl (fun _ => rfl) (fun _ => rfl) (fun _ => rfl) rfl (by decide)

/-! ### Empty flat family: success without commit (C10) -/

/-- C10, confirmed: an empty flat-objects family makes sendK8sObjects return
success immediately with no page POST and no PATCH; consequently a full run
that collects zero flat objects (with everything else succeeding) reports
success while its fetching session is never committed and no objects page
is ever sent. -/
theorem runM_empty_objects_no_commit (cid : String) (budget : Nat) (helmSizes : List Nat)
    (objSize : K8sObj → Nat) (treeSize : ObjectsTree → Nat) (o : RunOracle)
    (hcid : validClusterID cid = true) (ha : o.authOk = true) (hu : o.uniqueIdOk = true)
    (hf : o.fetchingOk = true) (hh : ∀ i, o.helmPostOk i = true) :
    (∀ (b : Nat) (p : Nat → Bool) (pk : Bool), sendK8sObjectsM b [] p pk = ([], none)) ∧
      (runM cid budget helmSizes [] objSize treeSize o).2 = none ∧
      Ev.patchCall ∉ (runM cid budget helmSizes [] objSize treeSize o).1 ∧
      ∀ i, Ev.postObjects i ∉ (runM cid budget helmSizes [] objSize treeSize o).1 := by
  refine ⟨fun b p pk => rfl, ?_⟩
  have htrace : runM cid budget helmSizes [] objSize treeSize o =
      ([Ev.authCall, Ev.uniqueIdCall, Ev.openCall] ++
        (sendHelmReleasesM budget helmSizes o.helmPostOk).1 ++ [] ++ [], none) := by
    simp only [runM, hcid, ha, hu, hf, Bool.not_true, Bool.false_eq_true, if_false]
    rcases hsh : sendHelmReleasesM budget helmSizes o.helmPostOk with ⟨hEvs, hErr⟩
    have : hErr = none := by
      have := sendHelmReleasesM_ok budget helmSizes hh
      rw [hsh] at this
      exact this
    subst this
    simp [getK8sTree, getSourceParents, getSourceParentsAux, initStore, getSpecialParents,
      treeFuel, totalRefs, getK8sTreeAux, sendK8sTreeM, sendK8sObjectsM]
  rw [htrace]
  refine ⟨rfl, ?_, ?_⟩
  · intro hmem
    simp only [List.append_nil, List.mem_append] at hmem
    rcases hmem with hmem | hmem
    · simp at hmem
    · rcases sendHelmReleasesM_events budget helmSizes o.helmPostOk _ hmem with ⟨i, hi⟩
      cases hi
  · intro i hmem
    simp only [List.append_nil, List.mem_append] at hmem
    rcases hmem with hmem | hmem
    · simp at hmem
    · rcases sendHelmReleasesM_events budget helmSizes o.helmPostOk _ hmem with ⟨j, hj⟩
      cases hj

/-- C10, witness: the empty-family behavior at a concrete run with one helm
release and everything else succeeding. -/
theorem runM_empty_objects_no_commit_witness :
    sendK8sObjectsM 500 [] (fun _ => true) true = ([], none) ∧
      (runM "c" 500 [10] [] (fun _ => 0) (fun _ => 0)
        ⟨true, true, true, fun _ => true, fun _ => true, fun _ => true, true⟩).2 = none :=
  ⟨(runM_empty_objects_no_commit "c" 500 [10] (fun _ => 0) (fun _ => 0)
      ⟨true, true, true, fun _ => true, fun _ => true, fun _ => true, true⟩
      (by decide) rfl rfl rfl (fun _ => rfl)).1 500 (fun _ => true) true,
    (runM_empty_objects_no_commit "c" 500 [10] (fun _ => 0) (fun _ => 0)
      ⟨true, true, true, fun _ => true, fun _ => true, fun _ => true, true⟩
      (by decide) rfl rfl rfl (fun _ => rfl)).2.1⟩

/-! ### Phase ordering (C5) -/

theorem pairwise_phase_of_const (l : List Ev) (k : Nat) (h : ∀ e ∈ l, phaseIdx e = k) :
    l.Pairwise (fun a b => phaseIdx a ≤ phaseIdx b) :=
  List.pairwise_of_forall_mem_list (fun a ha b hb => by rw [h a ha, h b hb])

theorem sendHelmReleasesM_phase (b : Nat) (s : List Nat) (p : Nat → Bool) :
    ∀ e ∈ (sendHelmReleasesM b s p).1, phaseIdx e = 3 := by
  intro e he
  rcases sendHelmReleasesM_events b s p e he with ⟨i, rfl⟩
  rfl

theorem sendK8sTreeM_phase (b : Nat) (ts : List ObjectsTree) (sz : ObjectsTree → Nat)
    (p : Nat → Bool) : ∀ e ∈ (sendK8sTreeM b ts sz p).1, phaseIdx e = 4 := by
  intro e he
  rcases sendK8sTreeM_events b ts sz p e he with ⟨i, rfl⟩
  rfl

theorem sendK8sObjectsM_phase (b : Nat) (s : List Nat) (p : Nat → Bool) (pk : Bool) :
    ∀ e ∈ (sendK8sObjectsM b s p pk).1, 5 ≤ phaseIdx e ∧ phaseIdx e ≤ 6 := by
  intro e he
  rcases sendK8sObjectsM_events b s p pk e he with ⟨i, rfl⟩ | rfl <;>
    exact ⟨by simp [phaseIdx], by simp [phaseIdx]⟩

theorem sendK8sObjectsM_pairwise (b : Nat) (s : List Nat) (p : Nat → Bool) (pk : Bool) :
    ((sendK8sObjectsM b s p pk).1).Pairwise (fun a b => phaseIdx a ≤ phaseIdx b) := by
  simp only [sendK8sObjectsM]
  split
  · exact List.Pairwise.nil
  · split
    · refine pairwise_phase_of_const _ 5 ?_
      intro e he
      rcases List.mem_map.mp he with ⟨i, _, rfl⟩
      rfl
    · refine List.pairwise_append.mpr ⟨?_, ?_, ?_⟩
      · refine pairwise_phase_of_const _ 5 ?_
        intro e he
        rcases List.mem_map.mp he with ⟨i, _, rfl⟩
        rfl
      · exact List.pairwise_singleton _ _
      · intro a ha e he
        rcases List.mem_map.mp ha with ⟨i, _, rfl⟩
        rcases List.mem_singleton.mp he with rfl
        simp [phaseIdx]

/-- C5, counterexample: a fully successful run with one helm release, one
tree page and one objects page issues its requests in the order login,
namespace lookup, session HEAD, helm POST, tree POST, objects POST, PATCH —
the release upload (trace position 3) precedes the flat-objects upload
(trace position 5), contradicting the claimed objects-trees-releases order. -/
theorem runM_order_refuted :
    (runM "c" 500 [10]
        [⟨"r", "Deployment", "n", "r", "v1", []⟩,
          ⟨"p", "Pod", "n", "p", "v1", [⟨"r", "Deployment", "r", "v1"⟩]⟩]
        (fun _ => 10) (fun _ => 10)
        ⟨true, true, true, fun _ => true, fun _ => true, fun _ => true, true⟩).1 =
      [Ev.authCall, Ev.uniqueIdCall, Ev.openCall, Ev.postHelm 0, Ev.postTree 0,
        Ev.postObjects 0, Ev.patchCall] ∧
      ∃ i j, i < j ∧
        (runM "c" 500 [10]
          [⟨"r", "Deployment", "n", "r", "v1", []⟩,
            ⟨"p", "Pod", "n", "p", "v1", [⟨"r", "Deployment", "r", "v1"⟩]⟩]
          (fun _ => 10) (fun _ => 10)
          ⟨true, true, true, fun _ => true, fun _ => true, fun _ => true, true⟩).1.get? i =
            some (Ev.postHelm 0) ∧
        (runM "c" 500 [10]
          [⟨"r", "Deployment", "n", "r", "v1", []⟩,
            ⟨"p", "Pod", "n", "p", "v1", [⟨"r", "Deployment", "r", "v1"⟩]⟩]
          (fun _ => 10) (fun _ => 10)
          ⟨true, true, true, fun _ => true, fun _ => true, fun _ => true, true⟩).1.get? j =
            some (Ev.postObjects 0) :=
  ⟨by decide, 3, 5, by decide, by decide, by decide⟩

/-- C5, amended: in every run the requests are issued in the phase order
login, namespace lookup, session HEAD, then release pages, then tree pages,
then flat-object pages, then the PATCH — releases before trees before flat
objects, the reverse of the claimed family order — and the PATCH appears in
the trace only if the run's result is success, hence only after every page
of all three families succeeded; after the first fatal error no
later-phase request appears. -/
theorem runM_phase_order_amended (cid : String) (budget : Nat) (helmSizes : List Nat)
    (objs : List K8sObj) (objSize : K8sObj → Nat) (treeSize : ObjectsTree → Nat)
    (o : RunOracle) :
    ((runM cid budget helmSizes objs objSize treeSize o).1).Pairwise
        (fun a b => phaseIdx a ≤ phaseIdx b) ∧
      (Ev.patchCall ∈ (runM cid budget helmSizes objs objSize treeSize o).1 →
        (runM cid budget helmSizes objs objSize treeSize o).2 = none) := by
  by_cases hcid : validClusterID cid = true
  case neg =>
    have hcid' : validClusterID cid = false := by simpa using hcid
    simp [runM, hcid']
  by_cases ha : o.authOk
  case neg => simp [runM, hcid, ha]
  by_cases hu : o.uniqueIdOk
  case neg =>
    refine ⟨?_, ?_⟩ <;> simp only [runM, hcid, ha, hu, Bool.not_true, Bool.not_false,
      Bool.false_eq_true, if_false, if_true]
    · decide
    · intro hmem
      simp at hmem
  by_cases hf : o.fetchingOk
  case neg =>
    refine ⟨?_, ?_⟩ <;> simp only [runM, hcid, ha, hu, hf, Bool.not_true, Bool.not_false,
      Bool.false_eq_true, if_false, if_true]
    · decide
    · intro hmem
      simp at hmem
  have hrw : ∀ x : List Ev × Option RunError,
      runM cid budget helmSizes objs objSize treeSize o = x →
      (x.1.Pairwise (fun a b => phaseIdx a ≤ phaseIdx b) ∧
        (Ev.patchCall ∈ x.1 → x.2 = none)) →
      ((runM cid budget helmSizes objs objSize treeSize o).1.Pairwise
          (fun a b => phaseIdx a ≤ phaseIdx b) ∧
        (Ev.patchCall ∈ (runM cid budget helmSizes objs objSize treeSize o).1 →
          (runM cid budget helmSizes objs objSize treeSize o).2 = none)) := by
    intro x hx hP
    rw [hx]
    exact hP
  have hpre : ∀ e ∈ [Ev.authCall, Ev.uniqueIdCall, Ev.openCall], phaseIdx e ≤ 2 := by
    intro e he
    simp at he
    rcases he with rfl | rfl | rfl <;> decide
  have hprePW : ([Ev.authCall, Ev.uniqueIdCall, Ev.openCall] : List Ev).Pairwise
      (fun a b => phaseIdx a ≤ phaseIdx b) := by decide
  have hpatchpre : Ev.patchCall ∉ [Ev.authCall, Ev.uniqueIdCall, Ev.openCall] := by decide
  rcases hsh : sendHelmReleasesM budget helmSizes o.helmPostOk with ⟨hEvs, hErr⟩
  have hE3 : ∀ e ∈ hEvs, phaseIdx e = 3 := by
    have := sendHelmReleasesM_phase budget helmSizes o.helmPostOk
    rw [hsh] at this
    exact this
  have hPW1 : ([Ev.authCall, Ev.uniqueIdCall, Ev.openCall] ++ hEvs).Pairwise
      (fun a b => phaseIdx a ≤ phaseIdx b) :=
    List.pairwise_append.mpr ⟨hprePW, pairwise_phase_of_const _ 3 hE3,
      fun a hA e he => by rw [hE3 e he]; exact (hpre a hA).trans (by decide)⟩
  have hpatch1 : Ev.patchCall ∉ [Ev.authCall, Ev.uniqueIdCall, Ev.openCall] ++ hEvs := by
    intro hmem
    rcases List.mem_append.mp hmem with h | h
    · exact hpatchpre h
    · have := hE3 _ h
      simp [phaseIdx] at this
  cases hErr with
  | some e =>
    exact hrw ([Ev.authCall, Ev.uniqueIdCall, Ev.openCall] ++ hEvs, some e)
      (by simp [runM, hcid, ha, hu, hf, hsh]) ⟨hPW1, fun hmem => absurd hmem hpatch1⟩
  | none =>
  cases hgt : getK8sTree objs with
  | none =>
    exact hrw ([Ev.authCall, Ev.uniqueIdCall, Ev.openCall] ++ hEvs, some .treeBuildError)
      (by simp [runM, hcid, ha, hu, hf, hsh, hgt])
      ⟨hPW1, fun hmem => absurd hmem hpatch1⟩
  | some trees =>
  rcases hst : sendK8sTreeM budget trees treeSize o.treePostOk with ⟨tEvs, tErr⟩
  have hT4 : ∀ e ∈ tEvs, phaseIdx e = 4 := by
    have := sendK8sTreeM_phase budget trees treeSize o.treePostOk
    rw [hst] at this
    exact this
  have hPW2 : (([Ev.authCall, Ev.uniqueIdCall, Ev.openCall] ++ hEvs) ++ tEvs).Pairwise
      (fun a b => phaseIdx a ≤ phaseIdx b) := by
    refine List.pairwise_append.mpr ⟨hPW1, pairwise_phase_of_const _ 4 hT4, ?_⟩
    intro a hA e he
    rw [hT4 e he]
    rcases List.mem_append.mp hA with h | h
    · exact (hpre a h).trans (by decide)
    · rw [hE3 a h]
      decide
  have hpatch2 : Ev.patchCall ∉ ([Ev.authCall, Ev.uniqueIdCall, Ev.openCall] ++ hEvs) ++ tEvs := by
    intro hmem
    rcases List.mem_append.mp hmem with h | h
    · exact hpatch1 h
    · have := hT4 _ h
      simp [phaseIdx] at this
  cases tErr with
  | some e =>
    exact hrw (([Ev.authCall, Ev.uniqueIdCall, Ev.openCall] ++ hEvs) ++ tEvs, some e)
      (by simp [runM, hcid, ha, hu, hf, hsh, hgt, hst])
      ⟨hPW2, fun hmem => absurd hmem hpatch2⟩
  | none =>
  have hO := sendK8sObjectsM_phase budget (objs.map objSize) o.objPostOk o.patchOk
  have hPW3 : ((([Ev.authCall, Ev.uniqueIdCall, Ev.openCall] ++ hEvs) ++ tEvs) ++
      (sendK8sObjectsM budget (objs.map objSize) o.objPostOk o.patchOk).1).Pairwise
      (fun a b => phaseIdx a ≤ phaseIdx b) := by
    refine List.pairwise_append.mpr ⟨hPW2,
      sendK8sObjectsM_pairwise budget (objs.map objSize) o.objPostOk o.patchOk, ?_⟩
    intro a hA e he
    have h5 := (hO e he).1
    rcases List.mem_append.mp hA with h | h
    · rcases List.mem_append.mp h with h' | h'
      · exact ((hpre a h').trans (by decide)).trans h5
      · rw [hE3 a h']
        omega
    · rw [hT4 a h]
      omega
  refine hrw ((([Ev.authCall, Ev.uniqueIdCall, Ev.openCall] ++ hEvs) ++ tEvs) ++
      (sendK8sObjectsM budget (objs.map objSize) o.objPostOk o.patchOk).1,
      (sendK8sObjectsM budget (objs.map objSize) o.objPostOk o.patchOk).2)
    (by simp [runM, hcid, ha, hu, hf, hsh, hgt, hst]) ⟨hPW3, ?_⟩
  intro hmem
  rcases List.mem_append.mp hmem with h | h
  · exact absurd h hpatch2
  · exact sendK8sObjectsM_patch_mem budget (objs.map objSize) o.objPostOk o.patchOk h

/-- C5, witness: the amended ordering applied to the concrete all-success
run used in the counterexample, discharging the membership hypothesis of
its commit clause. -/
theorem runM_phase_order_amended_witness :
    ((runM "c" 500 [10]
        [⟨"r", "Deployment", "n", "r", "v1", []⟩,
          ⟨"p", "Pod", "n", "p", "v1", [⟨"r", "Deployment", "r", "v1"⟩]⟩]
        (fun _ => 10) (fun _ => 10)
        ⟨true, true, true, fun _ => true, fun _ => true, fun _ => true, true⟩).1).Pairwise
        (fun a b => phaseIdx a ≤ phaseIdx b) ∧
      (runM "c" 500 [10]
        [⟨"r", "Deployment", "n", "r", "v1", []⟩,
          ⟨"p", "Pod", "n", "p", "v1", [⟨"r", "Deployment", "r", "v1"⟩]⟩]
        (fun _ => 10) (fun _ => 10)
        ⟨true, true, true, fun _ => true, fun _ => true, fun _ => true, true⟩).2 = none :=
  ⟨(runM_phase_order_amended "c" 500 [10]
      [⟨"r", "Deployment", "n", "r", "v1", []⟩,
        ⟨"p", "Pod", "n", "p", "v1", [⟨"r", "Deployment", "r", "v1"⟩]⟩]
      (fun _ => 10) (fun _ => 10)
      ⟨true, true, true, fun _ => true, fun _ => true, fun _ => true, true⟩).1,
    (runM_phase_order_amended "c" 500 [10]
      [⟨"r", "Deployment", "n", "r", "v1", []⟩,
        ⟨"p", "Pod", "n", "p", "v1", [⟨"r", "Deployment", "r", "v1"⟩]⟩]
      (fun _ => 10) (fun _ => 10)
      ⟨true, true, true, fun _ => true, fun _ => true, fun _ => true, true⟩).2 (by decide)⟩

/-! ### Chunk failure semantics (C6) -/

/-- C6, counterexample: three flat objects of 300 bytes at budget 500 give
two pages; with the first page POST failing and the second succeeding, the
run reports the delivery failure and never commits, but the second page is
still sent (the errgroup's context is discarded, so no page is ever
abandoned), contradicting the claim that remaining pages are never sent. -/
theorem runM_chunks_not_abandoned :
    runM "c" 500 []
        [⟨"a", "Pod", "n", "a", "v1", []⟩, ⟨"b", "Pod", "n", "b", "v1", []⟩,
          ⟨"c", "Pod", "n", "c", "v1", []⟩]
        (fun _ => 300) (fun _ => 10)
        ⟨true, true, true, fun _ => true, fun _ => true, fun i => i != 0, true⟩ =
      ([Ev.authCall, Ev.uniqueIdCall, Ev.openCall, Ev.postTree 0, Ev.postObjects 0,
        Ev.postObjects 1], some .objectsDeliveryError) ∧
      Ev.postObjects 1 ∈ (runM "c" 500 []
        [⟨"a", "Pod", "n", "a", "v1", []⟩, ⟨"b", "Pod", "n", "b", "v1", []⟩,
          ⟨"c", "Pod", "n", "c", "v1", []⟩]
        (fun _ => 300) (fun _ => 10)
        ⟨true, true, true, fun _ => true, fun _ => true, fun i => i != 0, true⟩).1 ∧
      Ev.patchCall ∉ (runM "c" 500 []
        [⟨"a", "Pod", "n", "a", "v1", []⟩, ⟨"b", "Pod", "n", "b", "v1", []⟩,
          ⟨"c", "Pod", "n", "c", "v1", []⟩]
        (fun _ => 300) (fun _ => 10)
        ⟨true, true, true, fun _ => true, fun _ => true, fun i => i != 0, true⟩).1 :=
  ⟨by decide, by decide, by decide⟩

/-- C6, amended: when a page POST of a family fails, the run reports
failure, later families are not attempted, and the commit PATCH is never
issued — but the remaining pages of the failing family are not abandoned:
every page of that family is still dispatched and sent, because the
dispatch loop neither consults the errgroup context nor stops on error.
Stated for each of the three families in program order (releases, trees,
flat objects). -/
theorem runM_family_failure_amended (cid : String) (budget : Nat) (helmSizes : List Nat)
    (objs : List K8sObj) (objSize : K8sObj → Nat) (treeSize : ObjectsTree → Nat)
    (o : RunOracle) (hcid : validClusterID cid = true) (ha : o.authOk = true)
    (hu : o.uniqueIdOk = true) (hf : o.fetchingOk = true) :
    (helmSizes ≠ [] →
      (∃ i, i < (chunkHelm budget helmSizes).length ∧ o.helmPostOk i = false) →
      (runM cid budget helmSizes objs objSize treeSize o).2 = some .helmDeliveryError ∧
        (∀ i, i < (chunkHelm budget helmSizes).length →
          Ev.postHelm i ∈ (runM cid budget helmSizes objs objSize treeSize o).1) ∧
        (∀ i, Ev.postTree i ∉ (runM cid budget helmSizes objs objSize treeSize o).1 ∧
          Ev.postObjects i ∉ (runM cid budget helmSizes objs objSize treeSize o).1) ∧
        Ev.patchCall ∉ (runM cid budget helmSizes objs objSize treeSize o).1) ∧
      (∀ trees, getK8sTree objs = some trees → (∀ i, o.helmPostOk i = true) → trees ≠ [] →
        (∃ i, i < (chunkTrees budget (trees.map (fun t =>
            TreeItem.mk t.children.length t.kind (treeSize t)))).length ∧
          o.treePostOk i = false) →
        (runM cid budget helmSizes objs objSize treeSize o).2 = some .treeDeliveryError ∧
          (∀ i, i < (chunkTrees budget (trees.map (fun t =>
              TreeItem.mk t.children.length t.kind (treeSize t)))).length →
            Ev.postTree i ∈ (runM cid budget helmSizes objs objSize treeSize o).1) ∧
          (∀ i, Ev.postObjects i ∉ (runM cid budget helmSizes objs objSize treeSize o).1) ∧
          Ev.patchCall ∉ (runM cid budget helmSizes objs objSize treeSize o).1) ∧
      ((∀ i, o.helmPostOk i = true) → (∀ i, o.treePostOk i = true) → objs ≠ [] →
        (∃ i, i < (chunkObjects budget (objs.map objSize)).length ∧ o.objPostOk i = false) →
        (runM cid budget helmSizes objs objSize treeSize o).2 = some .objectsDeliveryError ∧
          (∀ i, i < (chunkObjects budget (objs.map objSize)).length →
            Ev.postObjects i ∈ (runM cid budget helmSizes objs objSize treeSize o).1) ∧
          Ev.patchCall ∉ (runM cid budget helmSizes objs objSize treeSize o).1) := by
  refine ⟨?_, ?_, ?_⟩
  · intro hne hex
    have hsend : sendHelmReleasesM budget helmSizes o.helmPostOk =
        ((List.range (chunkHelm budget helmSizes).length).map Ev.postHelm,
          some .helmDeliveryError) := by
      simp only [sendHelmReleasesM]
      rw [if_neg (by simpa using hne), if_pos (range_any_not_true hex)]
    have htr : runM cid budget helmSizes objs objSize treeSize o =
        ([Ev.authCall, Ev.uniqueIdCall, Ev.openCall] ++
          (List.range (chunkHelm budget helmSizes).length).map Ev.postHelm,
          some .helmDeliveryError) := by
      simp [runM, hcid, ha, hu, hf, hsend]
    rw [htr]
    refine ⟨rfl, ?_, ?_, ?_⟩
    · intro i hi
      simp only [List.mem_append, List.mem_map, List.mem_range]
      exact .inr ⟨i, hi, rfl⟩
    · intro i
      constructor <;> · intro hmem; simp at hmem
    · intro hmem
      simp at hmem
  · intro trees hgt hhok htne hex
    rcases hsh : sendHelmReleasesM budget helmSizes o.helmPostOk with ⟨hEvs, hErr⟩
    have hErrN : hErr = none := by
      have := sendHelmReleasesM_ok budget helmSizes hhok
      rw [hsh] at this
      exact this
    subst hErrN
    have hE : ∀ e ∈ hEvs, ∃ i, e = Ev.postHelm i := by
      have := sendHelmReleasesM_events budget helmSizes o.helmPostOk
      rw [hsh] at this
      exact this
    have hsendt : sendK8sTreeM budget trees treeSize o.treePostOk =
        ((List.range (chunkTrees budget (trees.map (fun t =>
            TreeItem.mk t.children.length t.kind (treeSize t)))).length).map Ev.postTree,
          some .treeDeliveryError) := by
      simp only [sendK8sTreeM]
      rw [if_neg (by simpa using htne), if_pos (range_any_not_true hex)]
    have htr : runM cid budget helmSizes objs objSize treeSize o =
        ([Ev.authCall, Ev.uniqueIdCall, Ev.openCall] ++ hEvs ++
          (List.range (chunkTrees budget (trees.map (fun t =>
            TreeItem.mk t.children.length t.kind (treeSize t)))).length).map Ev.postTree,
          some .treeDeliveryError) := by
      simp [runM, hcid, ha, hu, hf, hsh, hgt, hsendt]
    rw [htr]
    refine ⟨rfl, ?_, ?_, ?_⟩
    · intro i hi
      simp only [List.append_assoc, List.mem_append, List.mem_map, List.mem_range]
      exact .inr (.inr ⟨i, hi, rfl⟩)
    · intro i hmem
      simp only [List.append_assoc, List.mem_append] at hmem
      rcases hmem with h | h | h
      · simp at h
      · rcases hE _ h with ⟨j, hj⟩
        cases hj
      · rcases List.mem_map.mp h with ⟨j, _, hj⟩
        cases hj
    · intro hmem
      simp only [List.append_assoc, List.mem_append] at hmem
      rcases hmem with h | h | h
      · simp at h
      · rcases hE _ h with ⟨j, hj⟩
        cases hj
      · rcases List.mem_map.mp h with ⟨j, _, hj⟩
        cases hj
  · intro hhok htok hone hex
    obtain ⟨trees, hgt⟩ := getK8sTree_total objs
    rcases hsh : sendHelmReleasesM budget helmSizes o.helmPostOk with ⟨hEvs, hErr⟩
    have hErrN : hErr = none := by
      have := sendHelmReleasesM_ok budget helmSizes hhok
      rw [hsh] at this
      exact this
    subst hErrN
    have hE : ∀ e ∈ hEvs, ∃ i, e = Ev.postHelm i := by
      have := sendHelmReleasesM_events budget helmSizes o.helmPostOk
      rw [hsh] at this
      exact this
    rcases hst : sendK8sTreeM budget trees treeSize o.treePostOk with ⟨tEvs, tErr⟩
    have htErrN : tErr = none := by
      have := sendK8sTreeM_ok budget trees treeSize htok
      rw [hst] at this
      exact this
    subst htErrN
    have hT : ∀ e ∈ tEvs, ∃ i, e = Ev.postTree i := by
      have := sendK8sTreeM_events budget trees treeSize o.treePostOk
      rw [hst] at this
      exact this
    have hsendo : sendK8sObjectsM budget (objs.map objSize) o.objPostOk o.patchOk =
        ((List.range (chunkObjects budget (objs.map objSize)).length).map Ev.postObjects,
          some .objectsDeliveryError) := by
      simp only [sendK8sObjectsM]
      rw [if_neg (by simp only [List.isEmpty_iff, List.map_eq_nil_iff]; exact hone),
        if_pos (range_any_not_true hex)]
    have htr : runM cid budget helmSizes objs objSize treeSize o =
        ([Ev.authCall, Ev.uniqueIdCall, Ev.openCall] ++ hEvs ++ tEvs ++
          (List.range (chunkObjects budget (objs.map objSize)).length).map Ev.postObjects,
          some .objectsDeliveryError) := by
      simp [runM, hcid, ha, hu, hf, hsh, hgt, hst, hsendo]
    rw [htr]
    refine ⟨rfl, ?_, ?_⟩
    · intro i hi
      simp only [List.append_assoc, List.mem_append, List.mem_map, List.mem_range]
      exact .inr (.inr (.inr ⟨i, hi, rfl⟩))
    · intro hmem
      simp only [List.append_assoc, List.mem_append] at hmem
      rcases hmem with h | h | h | h
      · simp at h
      · rcases hE _ h with ⟨j, hj⟩
        cases hj
      · rcases hT _ h with ⟨j, hj⟩
        cases hj
      · rcases List.mem_map.mp h with ⟨j, _, hj⟩
        cases hj

/-- C6, witness: the amended chunk-failure behavior applied to the concrete
two-page run of the counterexample, discharging the objects-family clause. -/
theorem runM_family_failure_amended_witness :
    (runM "c" 500 []
        [⟨"a", "Pod", "n", "a", "v1", []⟩, ⟨"b", "Pod", "n", "b", "v1", []⟩,
          ⟨"c", "Pod", "n", "c", "v1", []⟩]
        (fun _ => 300) (fun _ => 10)
        ⟨true, true, true, fun _ => true, fun _ => true, fun i => i != 0, true⟩).2 =
      some .objectsDeliveryError ∧
      Ev.patchCall ∉ (runM "c" 500 []
        [⟨"a", "Pod", "n", "a", "v1", []⟩, ⟨"b", "Pod", "n", "b", "v1", []⟩,
          ⟨"c", "Pod", "n", "c", "v1", []⟩]
        (fun _ => 300) (fun _ => 10)
        ⟨true, true, true, fun _ => true, fun _ => true, fun i => i != 0, true⟩).1 := by
  have h := (runM_family_failure_amended "c" 500 []
    [⟨"a", "Pod", "n", "a", "v1", []⟩, ⟨"b", "Pod", "n", "b", "v1", []⟩,
      ⟨"c", "Pod", "n", "c", "v1", []⟩]
    (fun _ => 300) (fun _ => 10)
    ⟨true, true, true, fun _ => true, fun _ => true, fun i => i != 0, true⟩
    (by decide) rfl rfl rfl).2.2 (fun _ => rfl) (fun _ => rfl) (by decide)
    ⟨0, by decide, by decide⟩
  exact ⟨h.1, h.2.2⟩

/-! ### Characterization of getSourceParents

Under the uid-uniqueness invariant of the data model, the decision
getSourceParents takes for an object depends only on that object's own
declared references and the special-parent index, because every
SetOwnerReferences performed by the loop targets the uid of the object just
processed. The following derived predicates name the three outcomes, and
the characterization lemma relates the loop to them. -/

/-- Membership test for a uid in the store. -/
def storeHas (st : Store) (u : String) : Bool :=
  st.any (fun p => p.1 == u)

theorem storeHas_cons (k : String) (v : List OwnerRef) (st : Store) (u : String) :
    storeHas ((k, v) :: st) u = (k == u || storeHas st u) := by
  simp [storeHas]

theorem storeHas_of_storeGet_ne_nil (st : Store) (u : String) (h : storeGet st u ≠ []) :
    storeHas st u = true := by
  induction st with
  | nil => exact absurd rfl h
  | cons p rest ih =>
    obtain ⟨k, v⟩ := p
    rw [storeHas_cons]
    by_cases hk : k == u
    · simp [hk]
    · rw [storeGet_cons, if_neg hk] at h
      simp [hk, ih h]

theorem storeGet_storeSet_self (st : Store) (u : String) (l : List OwnerRef)
    (h : storeHas st u = true) : storeGet (storeSet st u l) u = l := by
  induction st with
  | nil => cases h
  | cons p rest ih =>
    obtain ⟨k, v⟩ := p
    by_cases hk : k == u
    · rw [storeSet_cons, if_pos hk, storeGet_cons, if_pos hk]
    · rw [storeHas_cons] at h
      rw [storeSet_cons, if_neg hk, storeGet_cons, if_neg hk]
      exact ih (by simpa [hk] using h)

theorem storeHas_storeSet (st : Store) (k u : String) (l : List OwnerRef) :
    storeHas (storeSet st k l) u = storeHas st u := by
  induction st with
  | nil => rfl
  | cons p rest ih =>
    obtain ⟨k', v'⟩ := p
    by_cases hk : k' == k
    · rw [storeSet_cons, if_pos hk, storeHas_cons, storeHas_cons]
    · rw [storeSet_cons, if_neg hk, storeHas_cons, storeHas_cons, ih]

theorem storeHas_initStore (objs : List K8sObj) (o : K8sObj) (h : o ∈ objs) :
    storeHas (initStore objs) o.uid = true := by
  induction objs with
  | nil => cases h
  | cons a rest ih =>
    rcases List.mem_cons.mp h with rfl | h'
    · simp [initStore, storeHas]
    · have h2 : storeHas (List.map (fun o => (o.uid, o.ownerRefs)) rest) o.uid = true := ih h'
      simp only [initStore, List.map_cons, storeHas_cons, h2, Bool.or_true]

theorem storeGet_initStore (objs : List K8sObj) (o : K8sObj)
    (hnd : (objs.map K8sObj.uid).Nodup) (h : o ∈ objs) :
    storeGet (initStore objs) o.uid = o.ownerRefs := by
  induction objs with
  | nil => cases h
  | cons a rest ih =>
    rw [List.map_cons, List.nodup_cons] at hnd
    rw [initStore, List.map_cons, storeGet_cons]
    rcases List.mem_cons.mp h with rfl | h'
    · simp
    · rw [if_neg ?_]
      · exact ih hnd.2 h'
      · intro hc
        exact hnd.1 (by
          rw [show a.uid = o.uid from by simpa using hc]
          exact List.mem_map.mpr ⟨o, h', rfl⟩)

theorem storeGet_initStore_of_not_mem (objs : List K8sObj) (u : String)
    (h : ∀ o ∈ objs, o.uid ≠ u) : storeGet (initStore objs) u = [] := by
  induction objs with
  | nil => rfl
  | cons a rest ih =>
    rw [initStore, List.map_cons, storeGet_cons, if_neg ?_]
    · exact ih (fun o ho => h o (List.mem_cons_of_mem a ho))
    · intro hc
      exact h a (List.mem_cons_self a rest) (by simpa using hc)

/-- Outcome predicate: the object receives a synthetic heuristic parent. -/
def isSpecialObj (sp : SpecialParents) (o : K8sObj) : Bool :=
  (specialChildren o sp).1

/-- Outcome predicate: the object becomes a source parent (root). -/
def isRootObj (sp : SpecialParents) (o : K8sObj) : Bool :=
  o.ownerRefs.isEmpty && !(isSpecialObj sp o)

/-- The owner references an object holds when getSourceParents is done with
it: its synthetic references when it was heuristically matched, its
declared references otherwise. -/
def finalRefs (sp : SpecialParents) (o : K8sObj) : List OwnerRef :=
  if o.ownerRefs.isEmpty && (specialChildren o sp).1 then (specialChildren o sp).2
  else o.ownerRefs

theorem getSourceParentsAux_spec (sp : SpecialParents) :
    ∀ (objsPending : List K8sObj) (st : Store) (parents : List ObjectsTree)
      (remaining : List K8sObj),
      (∀ o ∈ objsPending, storeHas st o.uid = true ∧ storeGet st o.uid = o.ownerRefs) →
      (objsPending.map K8sObj.uid).Nodup →
      (getSourceParentsAux sp objsPending st parents remaining).1 =
          parents ++ (objsPending.filter (fun o => isRootObj sp o)).map mkLeaf ∧
        (getSourceParentsAux sp objsPending st parents remaining).2.1 =
          remaining ++ objsPending.filter (fun o => !(isRootObj sp o)) ∧
        (∀ o ∈ objsPending,
          storeGet (getSourceParentsAux sp objsPending st parents remaining).2.2 o.uid =
            finalRefs sp o) ∧
        (∀ u, (∀ o ∈ objsPending, o.uid ≠ u) →
          storeGet (getSourceParentsAux sp objsPending st parents remaining).2.2 u =
            storeGet st u) := by
  intro objsPending
  induction objsPending with
  | nil =>
    intro st parents remaining _ _
    exact ⟨by simp [getSourceParentsAux], by simp [getSourceParentsAux],
      fun o ho => absurd ho (List.not_mem_nil o), fun u _ => rfl⟩
  | cons o rest ih =>
    intro st parents remaining hst hnd
    obtain ⟨hhas, hget⟩ := hst o (List.mem_cons_self o rest)
    rw [List.map_cons, List.nodup_cons] at hnd
    have huid : ∀ o' ∈ rest, o'.uid ≠ o.uid := by
      intro o' ho' hc
      exact hnd.1 (hc ▸ List.mem_map.mpr ⟨o', ho', rfl⟩)
    by_cases hemp : o.ownerRefs.isEmpty
    · by_cases hsp : (specialChildren o sp).1
      · have hroot : isRootObj sp o = false := by
          simp [isRootObj, isSpecialObj, hsp]
        have hstep : getSourceParentsAux sp (o :: rest) st parents remaining =
            getSourceParentsAux sp rest (storeSet st o.uid (specialChildren o sp).2)
              parents (remaining ++ [o]) := by
          simp only [getSourceParentsAux, hget, hemp, if_true, hsp]
        have hst' : ∀ o' ∈ rest,
            storeHas (storeSet st o.uid (specialChildren o sp).2) o'.uid = true ∧
              storeGet (storeSet st o.uid (specialChildren o sp).2) o'.uid = o'.ownerRefs := by
          intro o' ho'
          obtain ⟨h1, h2⟩ := hst o' (List.mem_cons_of_mem o ho')
          exact ⟨by rw [storeHas_storeSet]; exact h1,
            by rw [storeGet_storeSet_ne st o.uid o'.uid _ (by simp [(huid o' ho').symm])]; exact h2⟩
        obtain ⟨ih1, ih2, ih3, ih4⟩ := ih (storeSet st o.uid (specialChildren o sp).2)
          parents (remaining ++ [o]) hst' hnd.2
        refine ⟨?_, ?_, ?_, ?_⟩
        · rw [hstep, ih1, List.filter_cons_of_neg (by simp [hroot])]
        · rw [hstep, ih2, List.filter_cons_of_pos (by simp [hroot])]
          simp
        · intro o' ho'
          rcases List.mem_cons.mp ho' with rfl | ho''
          · rw [hstep, ih4 o'.uid huid, storeGet_storeSet_self st o'.uid _ hhas,
              finalRefs, if_pos (by simp [hemp, hsp])]
          · rw [hstep]
            exact ih3 o' ho''
        · intro u hu
          rw [hstep, ih4 u (fun o' ho' => hu o' (List.mem_cons_of_mem o ho')),
            storeGet_storeSet_ne st o.uid u _
              (by simp [hu o (List.mem_cons_self o rest)])]
      · have hroot : isRootObj sp o = true := by
          simp [isRootObj, isSpecialObj, hsp, hemp]
        have hspf : (specialChildren o sp).1 = false := by simpa using hsp
        have hstep : getSourceParentsAux sp (o :: rest) st parents remaining =
            getSourceParentsAux sp rest st (parents ++ [mkLeaf o]) remaining := by
          simp only [getSourceParentsAux, hget, hemp, if_true, hspf, Bool.false_eq_true,
            if_false]
        obtain ⟨ih1, ih2, ih3, ih4⟩ := ih st (parents ++ [mkLeaf o]) remaining
          (fun o' ho' => hst o' (List.mem_cons_of_mem o ho')) hnd.2
        refine ⟨?_, ?_, ?_, ?_⟩
        · rw [hstep, ih1, List.filter_cons_of_pos (by simp [hroot]), List.map_cons]
          simp
        · rw [hstep, ih2, List.filter_cons_of_neg (by simp [hroot])]
        · intro o' ho'
          rcases List.mem_cons.mp ho' with rfl | ho''
          · rw [hstep, ih4 o'.uid huid, hget, finalRefs, if_neg (by simp [hsp])]
          · rw [hstep]
            exact ih3 o' ho''
        · intro u hu
          rw [hstep, ih4 u (fun o' ho' => hu o' (List.mem_cons_of_mem o ho'))]
    · have hroot : isRootObj sp o = false := by
        simp [isRootObj, hemp]
      have hempf : o.ownerRefs.isEmpty = false := by simpa using hemp
      have hstep : getSourceParentsAux sp (o :: rest) st parents remaining =
          getSourceParentsAux sp rest st parents (remaining ++ [o]) := by
        simp only [getSourceParentsAux, hget, hempf, Bool.false_eq_true, if_false]
      obtain ⟨ih1, ih2, ih3, ih4⟩ := ih st parents (remaining ++ [o])
        (fun o' ho' => hst o' (List.mem_cons_of_mem o ho')) hnd.2
      refine ⟨?_, ?_, ?_, ?_⟩
      · rw [hstep, ih1, List.filter_cons_of_neg (by simp [hroot])]
      · rw [hstep, ih2, List.filter_cons_of_pos (by simp [hroot])]
        simp
      · intro o' ho'
        rcases List.mem_cons.mp ho' with rfl | ho''
        · rw [hstep, ih4 o'.uid huid, hget, finalRefs,
            if_neg (by simp [hemp])]
        · rw [hstep]
          exact ih3 o' ho''
      · intro u hu
        rw [hstep, ih4 u (fun o' ho' => hu o' (List.mem_cons_of_mem o ho'))]

theorem getSourceParents_spec (objs : List K8sObj)
    (hnd : (objs.map K8sObj.uid).Nodup) :
    (getSourceParents objs (initStore objs)).1 =
        (objs.filter (fun o => isRootObj (getSpecialParents objs) o)).map mkLeaf ∧
      (getSourceParents objs (initStore objs)).2.1 =
        objs.filter (fun o => !(isRootObj (getSpecialParents objs) o)) ∧
      (∀ o ∈ objs,
        storeGet (getSourceParents objs (initStore objs)).2.2 o.uid =
          finalRefs (getSpecialParents objs) o) ∧
      (∀ u, (∀ o ∈ objs, o.uid ≠ u) →
        storeGet (getSourceParents objs (initStore objs)).2.2 u = []) := by
  obtain ⟨h1, h2, h3, h4⟩ := getSourceParentsAux_spec (getSpecialParents objs) objs
    (initStore objs) [] []
    (fun o ho => ⟨storeHas_initStore objs o ho, storeGet_initStore objs o hnd ho⟩) hnd
  refine ⟨?_, ?_, ?_, ?_⟩
  · simp only [getSourceParents]
    simpa using h1
  · simp only [getSourceParents]
    simpa using h2
  · intro o ho
    simp only [getSourceParents]
    exact h3 o ho
  · intro u hu
    simp only [getSourceParents]
    rw [h4 u hu, storeGet_initStore_of_not_mem objs u hu]

/-! ### The claim-to-workload heuristic (C4) -/

theorem foldl_guard_filter {α β : Type} (p : α → Bool) (g : β → α → β) :
    ∀ (l : List α) (init : β),
      l.foldl (fun m o => if p o then g m o else m) init = (l.filter p).foldl g init := by
  intro l
  induction l with
  | nil => intro init; rfl
  | cons a rest ih =>
    intro init
    by_cases ha : p a
    · rw [List.foldl_cons, if_pos ha, List.filter_cons_of_pos ha, List.foldl_cons, ih]
    · rw [List.foldl_cons, if_neg ha, List.filter_cons_of_neg ha, ih]

theorem getSpecialParents_statefulSet_acc :
    ∀ (objs : List K8sObj) (acc : SpecialParents),
      (objs.foldl (fun sp o =>
        if o.kind == "Service" then
          { sp with service := spInsert sp.service (o.ns ++ "/" ++ o.name) o }
        else if o.kind == "StatefulSet" then
          { sp with statefulSet := spInsert sp.statefulSet (o.ns ++ "/" ++ o.name) o }
        else if o.kind == "PersistentVolumeClaim" then
          { sp with pvc := spInsert sp.pvc ("pvc-" ++ o.uid) o }
        else sp) acc).statefulSet =
      objs.foldl (fun m o => if o.kind == "StatefulSet" then
        spInsert m (o.ns ++ "/" ++ o.name) o else m) acc.statefulSet := by
  intro objs
  induction objs with
  | nil => intro acc; rfl
  | cons a rest ih =>
    intro acc
    rw [List.foldl_cons, List.foldl_cons, ih]
    congr 1
    by_cases h1 : a.kind == "Service"
    · have h2 : (a.kind == "StatefulSet") = false := by
        have hA : a.kind = "Service" := by simpa using h1
        simp [hA]
      rw [if_pos h1, if_neg (by simp [h2])]
    · by_cases h2 : a.kind == "StatefulSet"
      · rw [if_neg h1, if_pos h2, if_pos h2]
      · rw [if_neg h1, if_neg h2]
        by_cases h3 : a.kind == "PersistentVolumeClaim"
        · rw [if_pos h3, if_neg h2]
        · rw [if_neg h3, if_neg h2]

theorem getSpecialParents_single_ss (objs : List K8sObj) (ss : K8sObj)
    (h : objs.filter (fun o => o.kind == "StatefulSet") = [ss]) :
    (getSpecialParents objs).statefulSet = [(ss.ns ++ "/" ++ ss.name, ss)] := by
  rw [getSpecialParents, getSpecialParents_statefulSet_acc,
    foldl_guard_filter (fun o => o.kind == "StatefulSet")
      (fun m o => spInsert m (o.ns ++ "/" ++ o.name) o) objs, h]
  rfl

theorem specialChildren_pvc_single (objs : List K8sObj) (p ss : K8sObj)
    (hk : p.kind = "PersistentVolumeClaim")
    (hsplit : (splitDash p.name.data).length ≠ 1)
    (hss : (getSpecialParents objs).statefulSet = [(ss.ns ++ "/" ++ ss.name, ss)])
    (hns : p.ns = ss.ns)
    (hsfx : hasSfx ⟨joinDash (splitDash p.name.data).dropLast⟩ ss.name = true) :
    specialChildren p (getSpecialParents objs) = (true, [mkOwnerRef ss]) := by
  rw [specialChildren, if_neg (by simp [hk]), if_neg (by simp [hk]), if_pos (by simp [hk])]
  simp only [hss, if_neg hsplit, List.map_cons, List.map_nil, List.find?_cons]
  rw [show (p.ns == ss.ns && hasSfx ⟨joinDash (splitDash p.name.data).dropLast⟩ ss.name)
      = true from by simp [hns, hsfx]]

/-- C4, counterexample: a StatefulSet named "data" and a claim named
"data-web-0" in the same namespace: "data" is a prefix of the stripped base
name "data-web", so the claim as stated predicts a synthetic owner and
exclusion from the roots — but the code tests HasSuffix, no StatefulSet
matches, and the claim object is emitted as a forest root. -/
theorem pvc_owner_heuristic_refuted :
    "data".data.isPrefixOf "data-web".data = true ∧
      (specialChildren ⟨"pvc1", "PersistentVolumeClaim", "ns", "data-web-0", "v1", []⟩
        (getSpecialParents [⟨"ss1", "StatefulSet", "ns", "data", "apps/v1", []⟩,
          ⟨"pvc1", "PersistentVolumeClaim", "ns", "data-web-0", "v1", []⟩])).1 = false ∧
      (getK8sTree [⟨"ss1", "StatefulSet", "ns", "data", "apps/v1", []⟩,
        ⟨"pvc1", "PersistentVolumeClaim", "ns", "data-web-0", "v1", []⟩]).map
          (fun f => f.map ObjectsTree.uid) = some ["ss1", "pvc1"] :=
  ⟨by decide, by decide, by decide⟩

/-- C4, amended: a storage claim with an ordinal-suffix name, no declared
owner references, and a (unique) StatefulSet in the same namespace whose
name is a SUFFIX of the claim's name with its last dash-separated segment
removed, is assigned exactly that StatefulSet as synthetic owner and is
excluded from the root set (it joins the remaining children instead). -/
theorem pvc_synthetic_owner_amended (objs : List K8sObj) (p ss : K8sObj)
    (hnd : (objs.map K8sObj.uid).Nodup) (hp : p ∈ objs)
    (hk : p.kind = "PersistentVolumeClaim") (hrefs : p.ownerRefs = [])
    (hsplit : (splitDash p.name.data).length ≠ 1)
    (hss : objs.filter (fun o => o.kind == "StatefulSet") = [ss])
    (hns : p.ns = ss.ns)
    (hsfx : hasSfx ⟨joinDash (splitDash p.name.data).dropLast⟩ ss.name = true) :
    storeGet (getSourceParents objs (initStore objs)).2.2 p.uid = [mkOwnerRef ss] ∧
      p ∈ (getSourceParents objs (initStore objs)).2.1 ∧
      ∀ t ∈ (getSourceParents objs (initStore objs)).1, t.uid ≠ p.uid := by
  have hspecial : specialChildren p (getSpecialParents objs) = (true, [mkOwnerRef ss]) :=
    specialChildren_pvc_single objs p ss hk hsplit
      (getSpecialParents_single_ss objs ss hss) hns hsfx
  have hisroot : isRootObj (getSpecialParents objs) p = false := by
    simp [isRootObj, isSpecialObj, hspecial]
  obtain ⟨h1, h2, h3, _⟩ := getSourceParents_spec objs hnd
  refine ⟨?_, ?_, ?_⟩
  · rw [h3 p hp, finalRefs, if_pos (by simp [hrefs, hspecial]), hspecial]
  · rw [h2]
    exact List.mem_filter.mpr ⟨hp, by simp [hisroot]⟩
  · intro t ht hc
    rw [h1] at ht
    rcases List.mem_map.mp ht with ⟨r, hr, rfl⟩
    have hrobjs : r ∈ objs := (List.filter_sublist objs).subset (by simpa using hr)
    have hreq : r = p := List.inj_on_of_nodup_map hnd hrobjs hp (by simpa [mkLeaf] using hc)
    subst hreq
    have := (List.mem_filter.mp hr).2
    rw [hisroot] at this
    cases this

/-- C4, witness: the amended heuristic at a StatefulSet named "web" and a
claim named "data-web-0" ("web" is a suffix of "data-web"). -/
theorem pvc_synthetic_owner_amended_witness :
    storeGet (getSourceParents
        [⟨"ss1", "StatefulSet", "ns", "web", "apps/v1", []⟩,
          ⟨"pvc1", "PersistentVolumeClaim", "ns", "data-web-0", "v1", []⟩]
        (initStore [⟨"ss1", "StatefulSet", "ns", "web", "apps/v1", []⟩,
          ⟨"pvc1", "PersistentVolumeClaim", "ns", "data-web-0", "v1", []⟩])).2.2 "pvc1" =
      [mkOwnerRef ⟨"ss1", "StatefulSet", "ns", "web", "apps/v1", []⟩] ∧
      (⟨"pvc1", "PersistentVolumeClaim", "ns", "data-web-0", "v1", []⟩ : K8sObj) ∈
        (getSourceParents
          [⟨"ss1", "StatefulSet", "ns", "web", "apps/v1", []⟩,
            ⟨"pvc1", "PersistentVolumeClaim", "ns", "data-web-0", "v1", []⟩]
          (initStore [⟨"ss1", "StatefulSet", "ns", "web", "apps/v1", []⟩,
            ⟨"pvc1", "PersistentVolumeClaim", "ns", "data-web-0", "v1", []⟩])).2.1 :=
  ⟨(pvc_synthetic_owner_amended
      [⟨"ss1", "StatefulSet", "ns", "web", "apps/v1", []⟩,
        ⟨"pvc1", "PersistentVolumeClaim", "ns", "data-web-0", "v1", []⟩]
      ⟨"pvc1", "PersistentVolumeClaim", "ns", "data-web-0", "v1", []⟩
      ⟨"ss1", "StatefulSet", "ns", "web", "apps/v1", []⟩
      (by decide) (by decide) rfl rfl (by decide) (by decide) rfl (by decide)).1,
    (pvc_synthetic_owner_amended
      [⟨"ss1", "StatefulSet", "ns", "web", "apps/v1", []⟩,
        ⟨"pvc1", "PersistentVolumeClaim", "ns", "data-web-0", "v1", []⟩]
      ⟨"pvc1", "PersistentVolumeClaim", "ns", "data-web-0", "v1", []⟩
      ⟨"ss1", "StatefulSet", "ns", "web", "apps/v1", []⟩
      (by decide) (by decide) rfl rfl (by decide) (by decide) rfl (by decide)).2.1⟩

/-! ### Duplication bounds (C3)

A node with uid u is created exactly when a match consumes at least one
owner reference held under u in the store, so the number of occurrences of u
in the final forest is bounded by the number of roots carrying u plus u's
reference count after getSourceParents. With unique uids and at most one
owner reference per object both terms are at most one and exclusive. -/

theorem countForest_append (u : String) (a b : List ObjectsTree) :
    countForest u (a ++ b) = countForest u a + countForest u b := by
  induction a with
  | nil => simp [countForest]
  | cons t ts ih =>
    obtain ⟨cs, uid, k, n⟩ := t
    simp only [List.cons_append, countForest, ih]
    omega

theorem countForest_leaf (u uid k n : String) :
    countForest u [ObjectsTree.mk [] uid k n] = if uid = u then 1 else 0 := by
  simp [countForest]

theorem countForest_snoc_child (u : String) (cs : List ObjectsTree) (uid k n : String)
    (c : ObjectsTree) :
    countForest u [ObjectsTree.mk (cs ++ [c]) uid k n] =
      countForest u [ObjectsTree.mk cs uid k n] + countForest u [c] := by
  simp only [countForest, countForest_append]
  omega

theorem createTreesAux_count (u : String) :
    ∀ (fuel : Nat) (tree : ObjectsTree) (objectsAll pending : List K8sObj)
      (found : List String) (st : Store) (r : ObjectsTree × List String × Store),
      createTreesAux fuel tree objectsAll pending found st = some r →
      countForest u [r.1] + (storeGet r.2.2 u).length ≤
        countForest u [tree] + (storeGet st u).length := by
  intro fuel
  induction fuel with
  | zero => intro tree objectsAll pending found st r h; cases h
  | succ fuel ih =>
    intro tree objectsAll pending found st r h
    rcases pending with _ | ⟨obj, rest⟩
    · simp only [createTreesAux] at h
      cases h
      exact Nat.le_refl _
    · simp only [createTreesAux] at h
      by_cases hmatch : (storeGet st obj.uid).any (fun x => x.uid == tree.uid) = true
      · rw [if_pos hmatch] at h
        have hne : storeGet st obj.uid ≠ [] := by
          intro hnil
          rw [hnil] at hmatch
          cases hmatch
        have hfl : ((storeGet st obj.uid).filter (fun x => x.uid != tree.uid)).length <
            (storeGet st obj.uid).length := by
          have := length_filter_not_lt_of_any (fun x => x.uid == tree.uid)
            (storeGet st obj.uid) hmatch
          simpa [bne] using this
        set refs' := (storeGet st obj.uid).filter (fun x => x.uid != tree.uid) with hrefs'
        set st' := storeSet st obj.uid refs' with hst'
        set found' := if refs'.isEmpty then found ++ [obj.uid] else found with hfound'
        set remaining := objectsAll.filter (fun o => !(found'.contains o.uid)) with hrem
        have hkey : (if obj.uid = u then 1 else 0) + (storeGet st' u).length ≤
            (storeGet st u).length := by
          by_cases huu : obj.uid = u
          · subst huu
            rw [if_pos rfl, hst',
              storeGet_storeSet_self st obj.uid refs' (storeHas_of_storeGet_ne_nil st obj.uid hne)]
            omega
          · rw [if_neg huu, hst',
              storeGet_storeSet_ne st obj.uid u refs' (by simp [huu])]
            omega
        rcases hrec : createTreesAux fuel (mkLeaf obj) remaining remaining [] st' with
          _ | ⟨⟨childTree, objChildren, st''⟩⟩
        · rw [hrec] at h
          cases h
        · rw [hrec] at h
          have h1 := ih (mkLeaf obj) remaining remaining [] st'
            (childTree, objChildren, st'') hrec
          have h2 := ih (.mk (tree.children ++ [childTree]) tree.uid tree.kind tree.name)
            objectsAll rest (found' ++ objChildren) st'' r h
          obtain ⟨tcs, tuid, tk, tn⟩ := tree
          simp only [ObjectsTree.children, ObjectsTree.uid, ObjectsTree.kind,
            ObjectsTree.name] at h2
          rw [countForest_snoc_child] at h2
          simp only [mkLeaf, countForest_leaf] at h1
          simp only [ObjectsTree.uid] at hkey ⊢
          omega
      · rw [if_neg hmatch] at h
        exact ih tree objectsAll rest found st r h

theorem getK8sTreeAux_count (u : String) :
    ∀ (parents : List ObjectsTree) (fuel : Nat) (remaining : List K8sObj) (st : Store)
      (acc : List ObjectsTree) (r : List ObjectsTree × Store),
      getK8sTreeAux fuel parents remaining st acc = some r →
      countForest u r.1 + (storeGet r.2 u).length ≤
        countForest u acc + (parents.map (fun p => countForest u [p])).sum +
          (storeGet st u).length := by
  intro parents
  induction parents with
  | nil =>
    intro fuel remaining st acc r h
    simp only [getK8sTreeAux] at h
    cases h
    simp
  | cons p ps ih =>
    intro fuel remaining st acc r h
    simp only [getK8sTreeAux] at h
    rcases hrec : createTreesAux fuel p remaining remaining [] st with
      _ | ⟨⟨tree, found, st'⟩⟩
    · rw [hrec] at h
      cases h
    · rw [hrec] at h
      have h1 : countForest u [tree] + (storeGet st' u).length ≤
          countForest u [p] + (storeGet st u).length :=
        createTreesAux_count u fuel p remaining remaining [] st (tree, found, st') hrec
      have h2 := ih fuel (remaining.filter (fun o => !(found.contains o.uid))) st'
        (acc ++ [tree]) r h
      rw [countForest_append] at h2
      simp only [List.map_cons, List.sum_cons]
      omega

theorem countP_filter_le {α : Type} (p q : α → Bool) (l : List α) :
    (l.filter q).countP p ≤ l.countP p := by
  induction l with
  | nil => exact Nat.le_refl _
  | cons a rest ih =>
    by_cases hq : q a
    · rw [List.filter_cons_of_pos hq, List.countP_cons, List.countP_cons]
      omega
    · rw [List.filter_cons_of_neg hq, List.countP_cons]
      omega

theorem sum_count_leaf (u : String) : ∀ l : List K8sObj,
    ((l.map mkLeaf).map (fun p => countForest u [p])).sum =
      l.countP (fun o => o.uid == u) := by
  intro l
  induction l with
  | nil => rfl
  | cons o rest ih =>
    simp only [List.map_cons, List.sum_cons, List.countP_cons, ih, mkLeaf, countForest_leaf]
    by_cases h : o.uid = u
    · simp only [h, if_pos rfl, beq_self_eq_true, if_true]
      omega
    · simp [h]

theorem specialChildren_len_le_one (o : K8sObj) (sp : SpecialParents) :
    (specialChildren o sp).2.length ≤ 1 := by
  rw [specialChildren]
  split
  · split <;> simp
  · split
    · split <;> simp
    · split
      · dsimp only
        split
        · simp
        · split <;> simp
      · simp

theorem finalRefs_len_le_one (sp : SpecialParents) (o : K8sObj)
    (h : o.ownerRefs.length ≤ 1) : (finalRefs sp o).length ≤ 1 := by
  rw [finalRefs]
  split
  · exact specialChildren_len_le_one o sp
  · exact h

/-- C3, counterexample: an object with two owner references (shared
ownership) is attached under both of its owners: with roots r1 and r2 and an
object c owned by both, the forest contains a node with uid c under r1 and
another under r2 — uid c appears twice. -/
theorem getK8sTree_duplicate_uid :
    getK8sTree [⟨"r1", "Namespace", "", "r1", "v1", []⟩,
        ⟨"r2", "Namespace", "", "r2", "v1", []⟩,
        ⟨"c", "Pod", "ns", "c", "v1",
          [⟨"r1", "Namespace", "r1", "v1"⟩, ⟨"r2", "Namespace", "r2", "v1"⟩]⟩] =
      some [.mk [.mk [] "c" "Pod" "c"] "r1" "Namespace" "r1",
        .mk [.mk [] "c" "Pod" "c"] "r2" "Namespace" "r2"] ∧
      countForest "c" [.mk [.mk [] "c" "Pod" "c"] "r1" "Namespace" "r1",
        .mk [.mk [] "c" "Pod" "c"] "r2" "Namespace" "r2"] = 2 :=
  ⟨rfl, by simp [countForest]⟩

/-- C3, amended: when every object carries at most one owner reference
(synthetic references are single by construction), each uid appears in the
output forest at most once; an object with several owner references may
instead be attached once under each owner that resolves. Stated under the
data model's uid-uniqueness invariant. -/
theorem getK8sTree_no_duplicate (objs : List K8sObj) (forest : List ObjectsTree)
    (hnd : (objs.map K8sObj.uid).Nodup)
    (hrefs : ∀ o ∈ objs, o.ownerRefs.length ≤ 1)
    (hf : getK8sTree objs = some forest) :
    ∀ u, countForest u forest ≤ 1 := by
  intro u
  obtain ⟨h1, h2, h3, h4⟩ := getSourceParents_spec objs hnd
  simp only [getK8sTree] at hf
  rcases hr : getK8sTreeAux
      (treeFuel (getSourceParents objs (initStore objs)).2.2
        (getSourceParents objs (initStore objs)).2.1)
      (getSourceParents objs (initStore objs)).1
      (getSourceParents objs (initStore objs)).2.1
      (getSourceParents objs (initStore objs)).2.2 [] with _ | r
  · rw [hr] at hf
    cases hf
  · rw [hr] at hf
    simp only [Option.map_some'] at hf
    have hforest : r.1 = forest := by injection hf
    have hcount := getK8sTreeAux_count u _ _ _ _ _ r hr
    rw [h1, sum_count_leaf] at hcount
    have hzero : countForest u ([] : List ObjectsTree) = 0 := by simp [countForest]
    rw [hzero, hforest] at hcount
    by_cases hex : ∃ o ∈ objs, o.uid = u
    · obtain ⟨o, ho, hou⟩ := hex
      have hinj : ∀ r' ∈ objs, r'.uid = u → r' = o := by
        intro r' hr' hru
        exact List.inj_on_of_nodup_map hnd hr' ho (by rw [hru, hou])
      have hgetu : storeGet (getSourceParents objs (initStore objs)).2.2 u =
          finalRefs (getSpecialParents objs) o := by
        rw [← hou]
        exact h3 o ho
      by_cases hroot : isRootObj (getSpecialParents objs) o = true
      · have hcp : (objs.filter (fun o => isRootObj (getSpecialParents objs) o)).countP
            (fun o => o.uid == u) ≤ 1 := by
          have hA := countP_filter_le (fun o => o.uid == u)
            (fun o => isRootObj (getSpecialParents objs) o) objs
          have hB : objs.countP (fun o => o.uid == u) =
              (objs.map K8sObj.uid).countP (fun s => s == u) := by
            rw [List.countP_map]
            rfl
          have hC : (objs.map K8sObj.uid).countP (fun s => s == u) =
              (objs.map K8sObj.uid).count u := (List.count_eq_countP _ _).symm
          have hD : (objs.map K8sObj.uid).count u ≤ 1 :=
            List.nodup_iff_count_le_one.mp hnd u
          omega
        have hlen : (finalRefs (getSpecialParents objs) o).length = 0 := by
          have hroot' := hroot
          simp only [isRootObj, Bool.and_eq_true, Bool.not_eq_true', isSpecialObj] at hroot'
          rw [finalRefs, if_neg (by simp [hroot'.2]), List.isEmpty_iff.mp hroot'.1]
          rfl
        rw [hgetu, hlen] at hcount
        omega
      · have hcp : (objs.filter (fun o => isRootObj (getSpecialParents objs) o)).countP
            (fun o => o.uid == u) = 0 := by
          rw [List.countP_eq_zero]
          intro r' hr'
          obtain ⟨hr'objs, hr'root⟩ := List.mem_filter.mp hr'
          intro hru
          have : r' = o := hinj r' hr'objs (by simpa using hru)
          subst this
          exact hroot hr'root
        have hlen : (finalRefs (getSpecialParents objs) o).length ≤ 1 :=
          finalRefs_len_le_one _ o (hrefs o ho)
        rw [hgetu] at hcount
        omega
    · push_neg at hex
      have hcp : (objs.filter (fun o => isRootObj (getSpecialParents objs) o)).countP
          (fun o => o.uid == u) = 0 := by
        rw [List.countP_eq_zero]
        intro r' hr'
        have hr'objs := (List.filter_sublist objs).subset hr'
        simp only [beq_iff_eq]
        exact hex r' hr'objs
      have hlen : (storeGet (getSourceParents objs (initStore objs)).2.2 u).length = 0 := by
        rw [h4 u hex]
        rfl
      rw [hlen] at hcount
      omega

/-- C3, witness: the amended no-duplication bound at a two-object input, a
namespace root owning one pod, evaluated at the pod's uid. -/
theorem getK8sTree_no_duplicate_witness :
    getK8sTree [⟨"a", "Namespace", "", "ns-a", "v1", []⟩,
        ⟨"b", "Pod", "ns-a", "pod-b", "v1", [⟨"a", "Namespace", "ns-a", "v1"⟩]⟩] =
      some [.mk [.mk [] "b" "Pod" "pod-b"] "a" "Namespace" "ns-a"] ∧
      countForest "b" [ObjectsTree.mk [.mk [] "b" "Pod" "pod-b"] "a" "Namespace" "ns-a"] ≤ 1 :=
  ⟨rfl, getK8sTree_no_duplicate
    [⟨"a", "Namespace", "", "ns-a", "v1", []⟩,
      ⟨"b", "Pod", "ns-a", "pod-b", "v1", [⟨"a", "Namespace", "ns-a", "v1"⟩]⟩]
    [.mk [.mk [] "b" "Pod" "pod-b"] "a" "Namespace" "ns-a"]
    (by decide) (by decide) rfl "b"⟩

/-- C7, witness: the amended cap evaluated on a concrete run of both loops,
with one small and one oversized flat object and one nonempty tree. -/
theorem chunk_item_cap_amended_witness :
    [10] ∈ chunkObjects 500 [10, MaxItemSize + 5] ∧ (10 : Nat) ≤ MaxItemSize ∧
      [TreeItem.mk 1 "Pod" 20] ∈ chunkTrees 500 [TreeItem.mk 1 "Pod" 20] ∧
      (TreeItem.mk 1 "Pod" 20).size ≤ MaxItemSize :=
  ⟨by decide, (chunk_item_cap_amended 500 [10, MaxItemSize + 5] [TreeItem.mk 1 "Pod" 20]).1
      [10] (by decide) 10 (by decide),
    by decide, (chunk_item_cap_amended 500 [10, MaxItemSize + 5] [TreeItem.mk 1 "Pod" 20]).2
      [TreeItem.mk 1 "Pod" 20] (by decide) (TreeItem.mk 1 "Pod" 20) (by decide)⟩
